import Mathlib

/-!
Verification of the pantry-inventory food-item API
(src/src/app/api/fooditem/route.ts and src/prisma/schema.prisma).

The route module exists in two versions in the repository: the original
handlers and a rewritten set that wraps multi-statement work in a database
transaction.  Both are embedded here; definitions suffixed `Tx` model the
transactional rewrite.

Authentication (the 401 path) is orthogonal to every property below; the
embedding models requests that have passed the auth guard.
-/

namespace Pantry

/-! ### JavaScript value model

Request bodies arrive as untyped JSON (`body: unknown`).  We model the
JavaScript values the handlers inspect: `typeof`, property access on an
object (absent property reads as `undefined`), and literals.  Numbers are
modelled as integers; no property in scope involves fractional values. -/

inductive JSValue where
  | undefined
  | null
  | boolean (b : Bool)
  | number (n : Int)
  | string (s : String)
  | array (xs : List JSValue)
  | object (fields : List (String × JSValue))

/-- `x === null`. -/
def isNullValue : JSValue → Bool
  | .null => true
  | _ => false

/-- `x !== undefined` fails, i.e. the value is `undefined`. -/
def isUndef : JSValue → Bool
  | .undefined => true
  | _ => false

/-- JavaScript `typeof`: note `typeof null` and `typeof` of an array are
both the string "object". -/
def jsTypeof : JSValue → String
  | .undefined => "undefined"
  | .null => "object"
  | .boolean _ => "boolean"
  | .number _ => "number"
  | .string _ => "string"
  | .array _ => "object"
  | .object _ => "object"

/-- Property access `b.k` on a JavaScript value: present object keys give
their value, everything else gives `undefined`. -/
def getField (v : JSValue) (k : String) : JSValue :=
  match v with
  | .object fields => (List.lookup k fields).getD .undefined
  | _ => .undefined

/-- Coercion used after a `typeof x === 'string'` guard has succeeded. -/
def asString : JSValue → String
  | .string s => s
  | _ => ""

/-- Coercion used after a `typeof x === 'number'` guard has succeeded. -/
def asInt : JSValue → Int
  | .number n => n
  | _ => 0

/-! ### Validators (route.ts, `isValidCreateBody` / `isValidUpdateBody` /
`isValidDeleteBody`; identical in both versions of the file) -/

def isValidCreateBody (body : JSValue) : Bool :=
  if !(jsTypeof body == "object") || isNullValue body then false
  else
    jsTypeof (getField body "name") == "string" &&
    jsTypeof (getField body "expirationDate") == "string" &&
    jsTypeof (getField body "quantity") == "number" &&
    jsTypeof (getField body "placement") == "string"

def isValidUpdateBody (body : JSValue) : Bool :=
  if !(jsTypeof body == "object") || isNullValue body then false
  else jsTypeof (getField body "id") == "string"

def isValidDeleteBody (body : JSValue) : Bool :=
  if !(jsTypeof body == "object") || isNullValue body then false
  else jsTypeof (getField body "id") == "string"

/-! ### Date parsing

Modelled from the spec: "expiration date must parse as a valid calendar
date".  The JavaScript runtime's date parser invoked by `new Date(...)` is
not part of the repository, so it is modelled as an ISO `YYYY-MM-DD`
parser; an unparseable string yields no value (JavaScript's Invalid Date,
which the database layer rejects when the row is written). -/

def digitVal (c : Char) : Nat := c.toNat - 48

def jsDateParse (s : String) : Option Int :=
  match s.data with
  | [y1, y2, y3, y4, '-', m1, m2, '-', d1, d2] =>
    if [y1, y2, y3, y4, m1, m2, d1, d2].all Char.isDigit then
      let y := ((digitVal y1 * 10 + digitVal y2) * 10 + digitVal y3) * 10 + digitVal y4
      let m := digitVal m1 * 10 + digitVal m2
      let d := digitVal d1 * 10 + digitVal d2
      if 1 ≤ m ∧ m ≤ 12 ∧ 1 ≤ d ∧ d ≤ 31 then
        some (((y * 100 + m) * 100 + d : Nat) : Int)
      else none
    else none
  | _ => none

/-! ### UploadThing file-key extraction (route.ts, `extractFileKeyFromUrl`)

The regex `/\/f\/([^/?]+)/` finds the first position where "/f/" is
followed by at least one character other than a slash or question mark and
returns that run of characters. -/

def keyChars (cs : List Char) : List Char :=
  cs.takeWhile (fun c => !(c == '/') && !(c == '?'))

def findFileKey : List Char → Option String
  | [] => none
  | '/' :: 'f' :: '/' :: rest =>
    let k := keyChars rest
    if k.isEmpty then findFileKey ('f' :: '/' :: rest) else some (String.mk k)
  | _ :: rest => findFileKey rest

def extractFileKeyFromUrl (url : String) : Option String :=
  findFileKey url.data

/-! ### Data model (prisma/schema.prisma) -/

structure FoodItem where
  id : String
  name : String
  expirationDate : Int
  quantity : Int
  imageUrl : Option String
  keywords : List String
  placement : String
  hidden : Bool
  createdAt : Int
  updatedAt : Int
deriving Repr, DecidableEq

structure FoodCategory where
  id : String
  name : String
deriving Repr, DecidableEq

/-- Junction row `FoodCategoryOnFoodItem`; composite primary key
`(foodItemId, foodCategoryId)`. -/
structure CategoryLink where
  foodItemId : String
  foodCategoryId : String
deriving Repr, DecidableEq

/-- The database state.  `@default(uuid())` id generation is modelled by
injective counters (`itemIdOf` / `catIdOf` below): each generated id is
distinct from every id generated before it, which is the property uuid
generation provides. -/
structure DB where
  items : List FoodItem
  categories : List FoodCategory
  links : List CategoryLink
  nextItemId : Nat
  nextCatId : Nat
deriving Repr, DecidableEq

def itemIdOf (n : Nat) : String := String.mk (List.replicate (n + 1) 'i')

def catIdOf (n : Nat) : String := String.mk (List.replicate (n + 1) 'c')

def emptyDB : DB := ⟨[], [], [], 0, 0⟩

/-- Category names of an item as returned by the `include`/`select` of the
handlers: the item's junction rows resolved to their category's name. -/
def categoryNamesOf (db : DB) (itemId : String) : List String :=
  (db.links.filter (fun l => l.foodItemId == itemId)).filterMap
    (fun l => (db.categories.find? (fun c => c.id == l.foodCategoryId)).map
      (fun c => c.name))

/-! ### Decoders for optional body fields

`isValidUpdateBody` checks only `id`, and `isValidCreateBody` checks only
the four required fields, so the remaining fields of a body reach the
database layer with whatever runtime type they have; an ill-typed value
makes the database call throw (surfaced as a 500 by the handlers).  A
decoder returning `none` models that throw. -/

def decodeOptString : JSValue → Option (Option String)
  | .undefined => some none
  | .string s => some (some s)
  | _ => none

def decodeOptNumber : JSValue → Option (Option Int)
  | .undefined => some none
  | .number n => some (some n)
  | _ => none

def decodeOptBool : JSValue → Option (Option Bool)
  | .undefined => some none
  | .boolean b => some (some b)
  | _ => none

/-- `new Date(expirationDate)` when the field is present: an unparseable
string is an Invalid Date, rejected when the row is written. -/
def decodeOptDate : JSValue → Option (Option Int)
  | .undefined => some none
  | .string s => (jsDateParse s).map some
  | _ => none

/-- PUT's `imageUrl`: the nullable column accepts a string or null. -/
def decodeOptNullableString : JSValue → Option (Option (Option String))
  | .undefined => some none
  | .null => some (some none)
  | .string s => some (some (some s))
  | _ => none

def decodeStringList : List JSValue → Option (List String)
  | [] => some []
  | .string s :: rest => (decodeStringList rest).map (fun l => s :: l)
  | _ :: _ => none

/-- PUT's `keywords`: absent leaves the column alone; an array of strings
replaces it; anything else is rejected by the database layer. -/
def decodeOptStringList : JSValue → Option (Option (List String))
  | .undefined => some none
  | .array xs => (decodeStringList xs).map some
  | _ => none

/-- POST's `keywords ?? []` and `categoryNames?.map(...) ?? []`: absent or
null collapse to the empty list; a non-array either throws at `.map` or is
rejected by the database layer. -/
def decodeCreateList : JSValue → Option (List String)
  | .undefined => some []
  | .null => some []
  | .array xs => decodeStringList xs
  | _ => none

/-- JavaScript falsiness: `undefined`, `null`, `false`, `0` and the empty
string are falsy; every array and object is truthy.  (Of JavaScript's
falsy values only `NaN`, `-0` and `0n` have no representative in the
integer-valued model, and they collapse the same way `0` does.) -/
def jsFalsy : JSValue → Bool
  | .undefined => true
  | .null => true
  | .boolean b => !b
  | .number n => n == 0
  | .string s => s == ""
  | .array _ => false
  | .object _ => false

/-- POST's `imageUrl || null`: any falsy value (absent, null, false, 0,
the empty string) is stored as null; a non-empty string is stored as is;
any other truthy value reaches the database layer, which rejects it for
the nullable string column. -/
def decodeCreateImageUrl : JSValue → Option (Option String)
  | .undefined => some none
  | .null => some none
  | .string s => some (if s == "" then none else some s)
  | .number n => if n == 0 then some none else none
  | .boolean b => if b then none else some none
  | _ => none

/-- PUT's `categoryNames` when it is present (`!== undefined`): an array of
strings is mapped to connectOrCreate entries; null throws at
`categoryNames.map`, any other shape is rejected by the database layer. -/
def decodeCatsPresent : JSValue → Option (List String)
  | .array xs => decodeStringList xs
  | _ => none

/-! ### connectOrCreate / nested create of category links

`connectOrCreate { where: { name }, create: { name } }` reuses the category
row with the given unique name or inserts a fresh one.  Each resulting
junction row insert is checked against the composite primary key
`(foodItemId, foodCategoryId)`; a duplicate aborts the whole write (the
enclosing nested write / transaction rolls back). -/

def findOrCreateCategory (db : DB) (nm : String) : DB × String :=
  match db.categories.find? (fun c => c.name == nm) with
  | some c => (db, c.id)
  | none =>
    ({ db with
        categories := db.categories ++ [⟨catIdOf db.nextCatId, nm⟩],
        nextCatId := db.nextCatId + 1 },
      catIdOf db.nextCatId)

def addLinks (db : DB) (itemId : String) : List String → Option DB
  | [] => some db
  | nm :: rest =>
    match findOrCreateCategory db nm with
    | (db1, catId) =>
      if db1.links.any (fun l => l.foodItemId == itemId && l.foodCategoryId == catId) then
        none
      else
        addLinks { db1 with links := db1.links ++ [⟨itemId, catId⟩] } itemId rest

/-! ### Observable events

Used to state ordering between the database delete and the external
file-storage delete, and "no storage access before validation". -/

inductive Event where
  | dbFind
  | dbCreate
  | dbUpdate
  | dbDeleteLinks
  | dbDelete
  | fileDelete (key : String)
deriving Repr, DecidableEq

def isFileDelete : Event → Bool
  | .fileDelete _ => true
  | _ => false

/-- Every external file deletion in the trace happens strictly after every
database row delete. -/
def fileDeleteAfterDbDelete (tr : List Event) : Prop :=
  ∀ i j : Fin tr.length, isFileDelete (tr.get i) = true → tr.get j = Event.dbDelete →
    (j : Nat) < (i : Nat)

instance (tr : List Event) : Decidable (fileDeleteAfterDbDelete tr) := by
  unfold fileDeleteAfterDbDelete
  infer_instance

/-! ### GET (route.ts `GET`; identical behaviour in both versions)

Without an id: `findMany` filtered to `hidden: false`, ordered by
`expirationDate: 'asc'` (a stable insertion sort models the database's
order-by).  With an id: `findUnique` with no hidden filter, 404 when
absent. -/

def insertByExpiration (x : FoodItem) : List FoodItem → List FoodItem
  | [] => [x]
  | y :: ys =>
    if x.expirationDate ≤ y.expirationDate then x :: y :: ys
    else y :: insertByExpiration x ys

def sortByExpiration : List FoodItem → List FoodItem
  | [] => []
  | x :: xs => insertByExpiration x (sortByExpiration xs)

def getAllFoodItems (db : DB) : List FoodItem :=
  sortByExpiration (db.items.filter (fun i => !i.hidden))

def getFoodItemById (db : DB) (id : String) : Int × Option FoodItem :=
  match db.items.find? (fun i => i.id == id) with
  | none => (404, none)
  | some item => (200, some item)

/-! ### POST (route.ts `POST`)

Both versions perform one `create` with nested category writes; nested
writes run atomically (the rewrite only makes the enclosing transaction
explicit), so a single embedding covers both.  On any database-level
failure the state is unchanged and a 500 is returned. -/

structure PostResult where
  status : Int
  db : DB
  createdId : Option String
  trace : List Event
deriving Repr, DecidableEq

def postFoodItem (db : DB) (body : JSValue) (now : Int) : PostResult :=
  if !(isValidCreateBody body) then ⟨400, db, none, []⟩
  else
    match jsDateParse (asString (getField body "expirationDate")),
          decodeCreateImageUrl (getField body "imageUrl"),
          decodeCreateList (getField body "keywords"),
          decodeCreateList (getField body "categoryNames") with
    | some exp, some img, some kws, some cns =>
      let newId := itemIdOf db.nextItemId
      let item : FoodItem :=
        ⟨newId, asString (getField body "name"), exp, asInt (getField body "quantity"),
          img, kws, asString (getField body "placement"), false, now, now⟩
      let db1 : DB :=
        { db with items := db.items ++ [item], nextItemId := db.nextItemId + 1 }
      match addLinks db1 newId cns with
      | some db2 => ⟨201, db2, some newId, [Event.dbCreate]⟩
      | none => ⟨500, db, none, [Event.dbCreate]⟩
    | _, _, _, _ => ⟨500, db, none, [Event.dbCreate]⟩

/-! ### PUT (route.ts `PUT`, original and transactional versions)

The original version runs `deleteMany` on the junction rows as a separate
awaited statement before the `update`; the transactional version wraps
both in one transaction, so a failing update rolls the deletion back. -/

structure PutResult where
  status : Int
  db : DB
deriving Repr, DecidableEq

/-- The field update `prisma.foodItem.update({ data: updateData })` without
the category relation: each field present in the body replaces the stored
value, `@updatedAt` is refreshed; an ill-typed present field or an invalid
date makes the call throw (`none`). -/
def applyFields (item : FoodItem) (body : JSValue) (now : Int) : Option FoodItem :=
  match decodeOptString (getField body "name"),
        decodeOptDate (getField body "expirationDate"),
        decodeOptNumber (getField body "quantity"),
        decodeOptNullableString (getField body "imageUrl"),
        decodeOptStringList (getField body "keywords"),
        decodeOptString (getField body "placement"),
        decodeOptBool (getField body "hidden") with
  | some nm, some exp, some qty, some img, some kws, some plc, some hid =>
    some { item with
            name := nm.getD item.name,
            expirationDate := exp.getD item.expirationDate,
            quantity := qty.getD item.quantity,
            imageUrl := img.getD item.imageUrl,
            keywords := kws.getD item.keywords,
            placement := plc.getD item.placement,
            hidden := hid.getD item.hidden,
            updatedAt := now }
  | _, _, _, _, _, _, _ => none

/-- The `update` call: find the unique row (throwing when absent), apply
the field patch, and — when `categoryNames` was present — create the new
junction rows as a nested write atomic with the field update. -/
def putUpdateStep (db : DB) (id : String) (body : JSValue) (now : Int)
    (cns : Option (List String)) : Option DB :=
  match db.items.find? (fun i => i.id == id) with
  | none => none
  | some item =>
    match applyFields item body now with
    | none => none
    | some item2 =>
      let db2 : DB :=
        { db with items := db.items.map (fun i => if i.id == id then item2 else i) }
      match cns with
      | none => some db2
      | some l => addLinks db2 id l

/-- Original `PUT`: the junction `deleteMany` commits on its own before the
update runs, so a subsequent failure leaves the links deleted. -/
def putFoodItem (db : DB) (body : JSValue) (now : Int) : PutResult :=
  if !(isValidUpdateBody body) then ⟨400, db⟩
  else
    let id := asString (getField body "id")
    if isUndef (getField body "categoryNames") then
      match putUpdateStep db id body now none with
      | some db2 => ⟨200, db2⟩
      | none => ⟨500, db⟩
    else
      let db1 : DB := { db with links := db.links.filter (fun l => !(l.foodItemId == id)) }
      match decodeCatsPresent (getField body "categoryNames") with
      | none => ⟨500, db1⟩
      | some cns =>
        match putUpdateStep db1 id body now (some cns) with
        | some db2 => ⟨200, db2⟩
        | none => ⟨500, db1⟩

/-- Transactional `PUT`: the junction deletion and the update run inside
one transaction; any failure rolls the whole state back. -/
def putFoodItemTx (db : DB) (body : JSValue) (now : Int) : PutResult :=
  if !(isValidUpdateBody body) then ⟨400, db⟩
  else
    let id := asString (getField body "id")
    if isUndef (getField body "categoryNames") then
      match putUpdateStep db id body now none with
      | some db2 => ⟨200, db2⟩
      | none => ⟨500, db⟩
    else
      let db1 : DB := { db with links := db.links.filter (fun l => !(l.foodItemId == id)) }
      match decodeCatsPresent (getField body "categoryNames") with
      | none => ⟨500, db⟩
      | some cns =>
        match putUpdateStep db1 id body now (some cns) with
        | some db2 => ⟨200, db2⟩
        | none => ⟨500, db⟩

/-! ### DELETE (route.ts `DELETE`, original and transactional versions)

Deleting the item cascades its junction rows (`onDelete: Cascade`).  The
file-storage call's outcome (`fileOk`) never influences the result: the
original version awaits it inside a try/catch that logs and continues, the
transactional version fires it unawaited with a logging `.catch`.  The
original version invokes it before the database delete; the transactional
version after the transaction commits. -/

structure DeleteResult where
  status : Int
  db : DB
  deletedId : Option String
  trace : List Event
deriving Repr, DecidableEq

def fileDeleteEvents (img : Option String) : List Event :=
  match img with
  | none => []
  | some url =>
    match extractFileKeyFromUrl url with
    | none => []
    | some key => [Event.fileDelete key]

def deleteFoodItem (db : DB) (body : JSValue) (fileOk : Bool) : DeleteResult :=
  if !(isValidDeleteBody body) then ⟨400, db, none, []⟩
  else
    let id := asString (getField body "id")
    match db.items.find? (fun i => i.id == id) with
    | none => ⟨404, db, none, [Event.dbFind]⟩
    | some item =>
      let db2 : DB :=
        { db with
            items := db.items.filter (fun i => !(i.id == id)),
            links := db.links.filter (fun l => !(l.foodItemId == id)) }
      ⟨200, db2, some item.id,
        Event.dbFind :: (fileDeleteEvents item.imageUrl ++ [Event.dbDelete])⟩

def deleteFoodItemTx (db : DB) (body : JSValue) (fileOk : Bool) : DeleteResult :=
  if !(isValidDeleteBody body) then ⟨400, db, none, []⟩
  else
    let id := asString (getField body "id")
    match db.items.find? (fun i => i.id == id) with
    | none => ⟨404, db, none, [Event.dbFind]⟩
    | some item =>
      let db2 : DB :=
        { db with
            items := db.items.filter (fun i => !(i.id == id)),
            links := db.links.filter (fun l => !(l.foodItemId == id)) }
      ⟨200, db2, some item.id,
        Event.dbFind :: (Event.dbDelete :: fileDeleteEvents item.imageUrl)⟩

/-! ### Well-formedness and reachability

`WF` collects the invariants the schema enforces (unique ids, the unique
category name, the composite junction key) together with freshness of the
id counters.  `Reachable` closes the empty store under the five mutating
handlers. -/

def WF (db : DB) : Prop :=
  (db.items.map (fun i => i.id)).Nodup ∧
  (∀ i ∈ db.items, ∃ k ∈ List.range db.nextItemId, i.id = itemIdOf k) ∧
  (db.categories.map (fun c => c.id)).Nodup ∧
  (db.categories.map (fun c => c.name)).Nodup ∧
  (∀ c ∈ db.categories, ∃ k ∈ List.range db.nextCatId, c.id = catIdOf k) ∧
  db.links.Nodup ∧
  (∀ l ∈ db.links, ∃ k ∈ List.range db.nextItemId, l.foodItemId = itemIdOf k)

inductive Reachable : DB → Prop where
  | init : Reachable emptyDB
  | post (db : DB) (body : JSValue) (now : Int) :
      Reachable db → Reachable (postFoodItem db body now).db
  | put (db : DB) (body : JSValue) (now : Int) :
      Reachable db → Reachable (putFoodItem db body now).db
  | putTx (db : DB) (body : JSValue) (now : Int) :
      Reachable db → Reachable (putFoodItemTx db body now).db
  | del (db : DB) (body : JSValue) (fileOk : Bool) :
      Reachable db → Reachable (deleteFoodItem db body fileOk).db
  | delTx (db : DB) (body : JSValue) (fileOk : Bool) :
      Reachable db → Reachable (deleteFoodItemTx db body fileOk).db

instance (db : DB) : Decidable (WF db) := by
  unfold WF
  infer_instance

/-- The name a junction row resolves to through the category table. -/
def linkName (db : DB) (l : CategoryLink) : Option String :=
  (db.categories.find? (fun c => c.id == l.foodCategoryId)).map (fun c => c.name)

/-- The collection read's ordering relation. -/
def expLE (a b : FoodItem) : Prop := a.expirationDate ≤ b.expirationDate

/-! ### Concrete states and bodies used to settle individual claims -/

/-- A store holding one visible item with id "i", quantity 2. -/
def oneItemDB : DB :=
  ⟨[⟨"i", "Milk", 100, 2, none, [], "Fridge", false, 0, 0⟩], [], [], 1, 0⟩

/-- PUT body `{id: "i", quantity: 0}`. -/
def qtyZeroConcreteBody : JSValue :=
  .object [("id", .string "i"), ("quantity", .number 0)]

/-- PUT body `{id: "iii"}` whose id matches no stored item. -/
def unknownIdBody : JSValue := .object [("id", .string "iii")]

/-- A store holding one item linked to one category. -/
def linkedItemDB : DB :=
  ⟨[⟨"i", "Milk", 100, 2, none, [], "Fridge", false, 0, 0⟩],
    [⟨"c", "Veg"⟩], [⟨"i", "c"⟩], 1, 1⟩

/-- PUT body whose quantity is ill-typed (a string) and which also carries
a categoryNames list, so the junction deleteMany runs before the update
call fails. -/
def illTypedQtyBody : JSValue :=
  .object [("id", .string "i"), ("quantity", .string "x"),
    ("categoryNames", .array [.string "Fruit"])]

/-- PUT body replacing the category links with ["Fruit"]. -/
def fruitCatsBody : JSValue :=
  .object [("id", .string "i"), ("categoryNames", .array [.string "Fruit"])]

/-- Create body whose categoryNames contains the same name twice. -/
def dupCatsCreateBody : JSValue :=
  .object [("name", .string "Milk"), ("expirationDate", .string "2024-01-10"),
    ("quantity", .number 2), ("placement", .string "Fridge"),
    ("categoryNames", .array [.string "Veg", .string "Veg"])]

/-- Create body with two distinct category names. -/
def twoCatsCreateBody : JSValue :=
  .object [("name", .string "Milk"), ("expirationDate", .string "2024-01-10"),
    ("quantity", .number 2), ("placement", .string "Fridge"),
    ("categoryNames", .array [.string "Veg", .string "Fruit"])]

/-- Create body whose expirationDate is not parseable as a date. -/
def garbageDateCreateBody : JSValue :=
  .object [("name", .string "a"), ("expirationDate", .string "garbage"),
    ("quantity", .number 1), ("placement", .string "p")]

/-- A store holding one item with an UploadThing image reference. -/
def imageItemDB : DB :=
  ⟨[⟨"i", "Milk", 100, 2, some "https://utfs.io/f/abc", [], "Fridge", false, 0, 0⟩],
    [], [], 1, 0⟩

/-- DELETE/GET body `{id: "i"}`. -/
def idOnlyBody : JSValue := .object [("id", .string "i")]

/-- A store with one hidden item among visible ones. -/
def hiddenItemDB : DB :=
  ⟨[⟨"i", "A", 300, 1, none, [], "P", false, 0, 0⟩,
    ⟨"ii", "B", 100, 1, none, [], "P", true, 0, 0⟩,
    ⟨"iii", "C", 200, 1, none, [], "P", false, 0, 0⟩], [], [], 3, 0⟩

/-- The hidden item of `hiddenItemDB`. -/
def hiddenItem : FoodItem := ⟨"ii", "B", 100, 1, none, [], "P", true, 0, 0⟩

/-- PUT body patching only the quantity. -/
def qtyFiveBody : JSValue :=
  .object [("id", .string "i"), ("quantity", .number 5)]

/-- Create body whose imageUrl is present but the empty string. -/
def emptyImageCreateBody : JSValue :=
  .object [("name", .string "Milk"), ("expirationDate", .string "2024-01-10"),
    ("quantity", .number 2), ("placement", .string "Fridge"),
    ("imageUrl", .string "")]

/-- Create body whose imageUrl is present but the falsy number 0. -/
def zeroImageCreateBody : JSValue :=
  .object [("name", .string "Milk"), ("expirationDate", .string "2024-01-10"),
    ("quantity", .number 2), ("placement", .string "Fridge"),
    ("imageUrl", .number 0)]

/-! ### Generic list helpers -/

theorem itemIdOf_inj {m n : Nat} (h : itemIdOf m = itemIdOf n) : m = n := by
  have hd : (itemIdOf m).data = (itemIdOf n).data := by rw [h]
  simp only [itemIdOf] at hd
  have := congrArg List.length hd
  simpa using this

theorem catIdOf_inj {m n : Nat} (h : catIdOf m = catIdOf n) : m = n := by
  have hd : (catIdOf m).data = (catIdOf n).data := by rw [h]
  simp only [catIdOf] at hd
  have := congrArg List.length hd
  simpa using this

/-- In a list whose images under `f` are pairwise distinct, searching for
the image of a member finds exactly that member. -/
theorem find?_eq_of_nodup_map {α : Type} (f : α → String) {l : List α} {c : α}
    (hn : (l.map f).Nodup) (hc : c ∈ l) :
    l.find? (fun x => f x == f c) = some c := by
  induction l with
  | nil => cases hc
  | cons x t ih =>
    rw [List.map_cons, List.nodup_cons] at hn
    rcases List.mem_cons.mp hc with h | h
    · subst h
      exact List.find?_cons_of_pos _ (by simp)
    · have hx : f x ≠ f c := by
        intro he
        exact hn.1 (he ▸ List.mem_map_of_mem f h)
      rw [List.find?_cons_of_neg _ (by simp [hx])]
      exact ih hn.2 h

/-- Replacing the (unique) row whose id matches, then searching by that id,
finds the replacement. -/
theorem find?_map_replace {l : List FoodItem} {i : String} {item item2 : FoodItem}
    (h : l.find? (fun x => x.id == i) = some item) (hid : item2.id = item.id) :
    (l.map (fun x => if x.id == i then item2 else x)).find? (fun x => x.id == i) =
      some item2 := by
  induction l with
  | nil => simp at h
  | cons x t ih =>
    by_cases hx : x.id = i
    · rw [List.find?_cons_of_pos _ (by simp [hx])] at h
      have hxi : x = item := by injection h
      subst hxi
      have h2 : item2.id = i := by rw [hid, hx]
      simp only [List.map_cons, if_pos (by simp [hx] : (x.id == i) = true)]
      exact List.find?_cons_of_pos _ (by simp [h2])
    · rw [List.find?_cons_of_neg _ (by simp [hx])] at h
      simp only [List.map_cons, if_neg (by simp [hx] : ¬ (x.id == i) = true)]
      rw [List.find?_cons_of_neg _ (by simp [hx])]
      exact ih h

/-- The replacement map of an update leaves every id in place. -/
theorem map_replace_ids {l : List FoodItem} {i : String} {item item2 : FoodItem}
    (h : l.find? (fun x => x.id == i) = some item) (hid : item2.id = item.id) :
    (l.map (fun x => if x.id == i then item2 else x)).map (fun x => x.id) =
      l.map (fun x => x.id) := by
  have hi : item.id = i := by
    have := List.find?_some h
    simpa using this
  rw [List.map_map]
  apply List.map_congr_left
  intro x hx
  by_cases hxi : x.id = i
  · simp [Function.comp, hxi, hid, hi]
  · simp [Function.comp, hxi]

/-! ### Sorting lemmas for the collection read -/

theorem insertByExpiration_perm (x : FoodItem) (l : List FoodItem) :
    (insertByExpiration x l).Perm (x :: l) := by
  induction l with
  | nil => simp [insertByExpiration]
  | cons y ys ih =>
    unfold insertByExpiration
    by_cases h : x.expirationDate ≤ y.expirationDate
    · simp [h]
    · rw [if_neg h]
      exact (List.Perm.cons y ih).trans (List.Perm.swap x y ys)

theorem sortByExpiration_perm (l : List FoodItem) :
    (sortByExpiration l).Perm l := by
  induction l with
  | nil => simp [sortByExpiration]
  | cons x xs ih =>
    unfold sortByExpiration
    exact (insertByExpiration_perm x (sortByExpiration xs)).trans (List.Perm.cons x ih)

theorem insertByExpiration_sorted {x : FoodItem} {l : List FoodItem}
    (h : List.Sorted expLE l) : List.Sorted expLE (insertByExpiration x l) := by
  induction l with
  | nil => simp [insertByExpiration, List.Sorted]
  | cons y ys ih =>
    unfold insertByExpiration
    by_cases hxy : x.expirationDate ≤ y.expirationDate
    · rw [if_pos hxy]
      refine List.Pairwise.cons ?_ h
      intro b hb
      rcases List.mem_cons.mp hb with hb | hb
      · subst hb; exact hxy
      · have := List.rel_of_sorted_cons h b hb
        exact le_trans hxy this
    · rw [if_neg hxy]
      have hyx : y.expirationDate ≤ x.expirationDate := le_of_not_le hxy
      rw [List.sorted_cons] at h
      refine List.Pairwise.cons ?_ (ih h.2)
      intro b hb
      have hb' := (insertByExpiration_perm x ys).mem_iff.mp hb
      rcases List.mem_cons.mp hb' with hb' | hb'
      · subst hb'; exact hyx
      · exact h.1 b hb'

theorem sortByExpiration_sorted (l : List FoodItem) :
    List.Sorted expLE (sortByExpiration l) := by
  induction l with
  | nil => simp [sortByExpiration, List.Sorted]
  | cons x xs ih =>
    unfold sortByExpiration
    exact insertByExpiration_sorted ih

/-! ### Field-patch properties -/

theorem applyFields_spec {item item2 : FoodItem} {body : JSValue} {now : Int}
    (h : applyFields item body now = some item2) :
    item2.id = item.id ∧ item2.createdAt = item.createdAt ∧ item2.updatedAt = now := by
  unfold applyFields at h
  split at h
  · injection h with h
    subst h
    exact ⟨rfl, rfl, rfl⟩
  · cases h

/-! ### connectOrCreate and nested link creation: specification lemmas -/

theorem findOrCreateCategory_spec {db db1 : DB} {nm catId : String}
    (h : findOrCreateCategory db nm = (db1, catId))
    (hidsN : (db.categories.map (fun c => c.id)).Nodup)
    (hnamesN : (db.categories.map (fun c => c.name)).Nodup)
    (hfresh : ∀ c ∈ db.categories, ∃ k ∈ List.range db.nextCatId, c.id = catIdOf k) :
    db1.items = db.items ∧ db1.links = db.links ∧
    db1.nextItemId = db.nextItemId ∧
    db.nextCatId ≤ db1.nextCatId ∧
    (∃ nc, db1.categories = db.categories ++ nc) ∧
    (db1.categories.map (fun c => c.id)).Nodup ∧
    (db1.categories.map (fun c => c.name)).Nodup ∧
    (∀ c ∈ db1.categories, ∃ k ∈ List.range db1.nextCatId, c.id = catIdOf k) ∧
    (∃ c, db1.categories.find? (fun x => x.id == catId) = some c ∧ c.name = nm ∧
      c ∈ db1.categories) := by
  unfold findOrCreateCategory at h
  split at h
  case h_1 c hc =>
    injection h with h1 h2
    subst h1
    subst h2
    have hmem : c ∈ db.categories := List.mem_of_find?_eq_some hc
    have hname : c.name = nm := by
      have := List.find?_some hc
      simpa using this
    refine ⟨rfl, rfl, rfl, le_refl _, ⟨[], by simp⟩, hidsN, hnamesN, hfresh, c, ?_, hname, hmem⟩
    exact find?_eq_of_nodup_map (fun x => x.id) hidsN hmem
  case h_2 hc =>
    injection h with h1 h2
    subst h1
    have hnotin : catIdOf db.nextCatId ∉ db.categories.map (fun c => c.id) := by
      intro hmem
      rcases List.mem_map.mp hmem with ⟨c, hcmem, hcid⟩
      rcases hfresh c hcmem with ⟨k, hk, hck⟩
      have : k = db.nextCatId := catIdOf_inj (by rw [← hck, hcid])
      subst this
      exact absurd (List.mem_range.mp hk) (lt_irrefl _)
    have hnmNotin : nm ∉ db.categories.map (fun c => c.name) := by
      intro hmem
      rcases List.mem_map.mp hmem with ⟨c, hcmem, hcnm⟩
      have := List.find?_eq_none.mp hc c hcmem
      simp [hcnm] at this
    refine ⟨rfl, rfl, rfl, Nat.le_succ _, ⟨[⟨catIdOf db.nextCatId, nm⟩], by subst h2; rfl⟩,
      ?_, ?_, ?_, ?_⟩
    · subst h2
      simp only [DB.categories, List.map_append, List.map_cons, List.map_nil]
      rw [List.nodup_append]
      exact ⟨hidsN, List.nodup_singleton _, by simpa using fun hmem => hnotin hmem⟩
    · subst h2
      simp only [DB.categories, List.map_append, List.map_cons, List.map_nil]
      rw [List.nodup_append]
      exact ⟨hnamesN, List.nodup_singleton _, by simpa using fun hmem => hnmNotin hmem⟩
    · subst h2
      intro c hcmem
      simp only [DB.categories] at hcmem
      rcases List.mem_append.mp hcmem with hcm | hcm
      · rcases hfresh c hcm with ⟨k, hk, hck⟩
        exact ⟨k, List.mem_range.mpr (Nat.lt_succ_of_lt (List.mem_range.mp hk)), hck⟩
      · rcases List.mem_singleton.mp hcm with rfl
        exact ⟨db.nextCatId, List.mem_range.mpr (Nat.lt_succ_self _), rfl⟩
    · subst h2
      refine ⟨⟨catIdOf db.nextCatId, nm⟩, ?_, rfl, by simp⟩
      rw [List.find?_append]
      have h1 : db.categories.find? (fun x => x.id == catIdOf db.nextCatId) = none := by
        rw [List.find?_eq_none]
        intro c hcmem hcid
        exact hnotin (List.mem_map.mpr ⟨c, hcmem, by simpa using hcid⟩)
      rw [h1]
      simp

/-- Full specification of the nested category-link creation: the rest of
the state is untouched, the schema invariants are preserved, and the new
junction rows are appended in order, one per supplied name, each resolving
to that name. -/
theorem addLinks_spec :
    ∀ (cns : List String) (db db' : DB) (itemId : String),
    addLinks db itemId cns = some db' →
    (db.categories.map (fun c => c.id)).Nodup →
    (db.categories.map (fun c => c.name)).Nodup →
    (∀ c ∈ db.categories, ∃ k ∈ List.range db.nextCatId, c.id = catIdOf k) →
    db.links.Nodup →
    db'.items = db.items ∧
    db'.nextItemId = db.nextItemId ∧
    db.nextCatId ≤ db'.nextCatId ∧
    (∃ nc, db'.categories = db.categories ++ nc) ∧
    (db'.categories.map (fun c => c.id)).Nodup ∧
    (db'.categories.map (fun c => c.name)).Nodup ∧
    (∀ c ∈ db'.categories, ∃ k ∈ List.range db'.nextCatId, c.id = catIdOf k) ∧
    db'.links.Nodup ∧
    (∃ nl, db'.links = db.links ++ nl ∧
      (∀ l ∈ nl, l.foodItemId = itemId) ∧
      nl.map (linkName db') = cns.map some) ∧
    (∀ nm ∈ cns, ∃ c ∈ db'.categories, c.name = nm) := by
  intro cns
  induction cns with
  | nil =>
    intro db db' itemId h hidsN hnamesN hfresh hlinksN
    simp only [addLinks] at h
    injection h with h
    subst h
    exact ⟨rfl, rfl, le_refl _, ⟨[], by simp⟩, hidsN, hnamesN, hfresh, hlinksN,
      ⟨[], by simp, by simp, by simp⟩, by simp⟩
  | cons nm rest ih =>
    intro db db' itemId h hidsN hnamesN hfresh hlinksN
    simp only [addLinks] at h
    rcases hfc : findOrCreateCategory db nm with ⟨db1, catId⟩
    rw [hfc] at h
    simp only at h
    split at h
    · cases h
    case isFalse hany =>
      rcases findOrCreateCategory_spec hfc hidsN hnamesN hfresh with
        ⟨hit1, hlk1, hni1, hnc1, ⟨nc1, hcats1⟩, hids1, hnames1, hfresh1, c, hcfind, hcname, hcmem⟩
      have hnotmem : (⟨itemId, catId⟩ : CategoryLink) ∉ db1.links := by
        intro hmem
        apply hany
        exact List.any_eq_true.mpr ⟨⟨itemId, catId⟩, hmem, by simp⟩
      have hlinksN2 : (db1.links ++ [⟨itemId, catId⟩] : List CategoryLink).Nodup := by
        rw [List.nodup_append]
        refine ⟨hlk1 ▸ hlinksN, List.nodup_singleton _, ?_⟩
        simpa using fun hmem => hnotmem hmem
      rcases ih { db1 with links := db1.links ++ [⟨itemId, catId⟩] } db' itemId h
          hids1 hnames1 hfresh1 hlinksN2 with
        ⟨hit2, hni2, hnc2, ⟨nc2, hcats2⟩, hids2, hnames2, hfresh2, hlinksN3,
          ⟨nl2, hlinks2, hnl2item, hnl2names⟩, hex2⟩
      have hcatseq : db'.categories = db.categories ++ (nc1 ++ nc2) := by
        rw [hcats2]
        simp only [DB.categories]
        rw [hcats1, List.append_assoc]
      refine ⟨by rw [hit2]; simpa using hit1,
        by rw [hni2]; simpa using hni1,
        le_trans hnc1 (by simpa using hnc2),
        ⟨nc1 ++ nc2, hcatseq⟩,
        hids2, hnames2, hfresh2, hlinksN3,
        ⟨⟨itemId, catId⟩ :: nl2, ?_, ?_, ?_⟩, ?_⟩
      · rw [hlinks2]
        simp only [DB.links]
        rw [hlk1, List.append_assoc]
        rfl
      · intro l hl
        rcases List.mem_cons.mp hl with rfl | hl
        · rfl
        · exact hnl2item l hl
      · simp only [List.map_cons, hnl2names, List.map_cons]
        congr 1
        unfold linkName
        rw [hcats2]
        simp only [DB.categories]
        rw [List.find?_append]
        have : db1.categories.find? (fun x => x.id == catId) = some c := hcfind
        rw [this]
        simp [hcname]
      · intro nm' hnm'
        rcases List.mem_cons.mp hnm' with rfl | hnm'
        · refine ⟨c, ?_, hcname⟩
          rw [hcats2]
          simp only [DB.categories]
          exact List.mem_append.mpr (Or.inl hcmem)
        · exact hex2 nm' hnm'

/-! ### Preservation of the schema invariants by every handler -/

theorem nodup_map_filter {α β : Type} (f : α → β) {l : List α} (p : α → Bool)
    (h : (l.map f).Nodup) : ((l.filter p).map f).Nodup :=
  List.Nodup.sublist (List.Sublist.map f (List.filter_sublist l)) h

theorem putUpdateStep_WF {db db' : DB} {id : String} {body : JSValue} {now : Int}
    {cns : Option (List String)} (h : putUpdateStep db id body now cns = some db')
    (hwf : WF db) : WF db' := by
  obtain ⟨h1, h2, h3, h4, h5, h6, h7⟩ := hwf
  unfold putUpdateStep at h
  split at h
  · cases h
  case h_2 item hfind =>
    split at h
    · cases h
    case h_2 item2 happ =>
      rcases applyFields_spec happ with ⟨hid2, _, _⟩
      have hitem_id : item.id = id := by
        have := List.find?_some hfind
        simpa using this
      have hmemitem : item ∈ db.items := List.mem_of_find?_eq_some hfind
      have hids_eq :
          ((db.items.map (fun i => if i.id == id then item2 else i)).map (fun x => x.id)) =
            db.items.map (fun x => x.id) := map_replace_ids hfind hid2
      have h1' : ((db.items.map (fun i => if i.id == id then item2 else i)).map
          (fun x => x.id)).Nodup := by rw [hids_eq]; exact h1
      have h2' : ∀ i ∈ db.items.map (fun i => if i.id == id then item2 else i),
          ∃ k ∈ List.range db.nextItemId, i.id = itemIdOf k := by
        intro i hi
        rcases List.mem_map.mp hi with ⟨x, hx, hrepl⟩
        by_cases hxid : x.id = id
        · have : i.id = x.id := by
            rw [← hrepl]
            simp [hxid, hid2, hitem_id]
          rw [this]
          exact h2 x hx
        · have : i.id = x.id := by
            rw [← hrepl]
            simp [hxid]
          rw [this]
          exact h2 x hx
      split at h
      · injection h with h
        subst h
        exact ⟨h1', h2', h3, h4, h5, h6, h7⟩
      case h_2 l =>
        rcases addLinks_spec l _ _ id h h3 h4 h5 h6 with
          ⟨hit, hni, _, _, hids', hnames', hfresh', hlinksN', ⟨nl, hlinks', hnlitem, _⟩, _⟩
        refine ⟨?_, ?_, hids', hnames', hfresh', hlinksN', ?_⟩
        · rw [hit]; exact h1'
        · rw [hit, hni]; exact h2'
        · rw [hlinks', hni]
          intro lk hlk
          rcases List.mem_append.mp hlk with hlk | hlk
          · exact h7 lk hlk
          · rw [hnlitem lk hlk, ← hitem_id]
            exact h2 item hmemitem

theorem filterLinks_WF {db : DB} (p : CategoryLink → Bool) (h : WF db) :
    WF { db with links := db.links.filter p } := by
  obtain ⟨h1, h2, h3, h4, h5, h6, h7⟩ := h
  exact ⟨h1, h2, h3, h4, h5, List.Nodup.filter p h6,
    fun l hl => h7 l (List.mem_of_mem_filter hl)⟩

theorem putFoodItem_WF (db : DB) (body : JSValue) (now : Int) (h : WF db) :
    WF (putFoodItem db body now).db := by
  unfold putFoodItem
  split
  · exact h
  · split
    · dsimp only
      split
      case h_1 db2 hstep => exact putUpdateStep_WF hstep h
      · exact h
    · dsimp only
      split
      · exact filterLinks_WF _ h
      case h_2 cns hdec =>
        split
        case h_1 db2 hstep => exact putUpdateStep_WF hstep (filterLinks_WF _ h)
        · exact filterLinks_WF _ h

theorem putFoodItemTx_WF (db : DB) (body : JSValue) (now : Int) (h : WF db) :
    WF (putFoodItemTx db body now).db := by
  unfold putFoodItemTx
  split
  · exact h
  · split
    · dsimp only
      split
      case h_1 db2 hstep => exact putUpdateStep_WF hstep h
      · exact h
    · dsimp only
      split
      · exact h
      case h_2 cns hdec =>
        split
        case h_1 db2 hstep => exact putUpdateStep_WF hstep (filterLinks_WF _ h)
        · exact h

theorem deleteShape_WF {db : DB} (id : String) (h : WF db) :
    WF { db with
          items := db.items.filter (fun i => !(i.id == id)),
          links := db.links.filter (fun l => !(l.foodItemId == id)) } := by
  obtain ⟨h1, h2, h3, h4, h5, h6, h7⟩ := h
  refine ⟨nodup_map_filter _ _ h1, ?_, h3, h4, h5, List.Nodup.filter _ h6, ?_⟩
  · intro i hi
    exact h2 i (List.mem_of_mem_filter hi)
  · intro l hl
    exact h7 l (List.mem_of_mem_filter hl)

theorem deleteFoodItem_WF (db : DB) (body : JSValue) (fileOk : Bool) (h : WF db) :
    WF (deleteFoodItem db body fileOk).db := by
  unfold deleteFoodItem
  split
  · exact h
  · dsimp only
    split
    · exact h
    · exact deleteShape_WF _ h

theorem deleteFoodItemTx_WF (db : DB) (body : JSValue) (fileOk : Bool) (h : WF db) :
    WF (deleteFoodItemTx db body fileOk).db := by
  unfold deleteFoodItemTx
  split
  · exact h
  · dsimp only
    split
    · exact h
    · exact deleteShape_WF _ h

theorem postFoodItem_WF (db : DB) (body : JSValue) (now : Int) (h : WF db) :
    WF (postFoodItem db body now).db := by
  obtain ⟨h1, h2, h3, h4, h5, h6, h7⟩ := h
  unfold postFoodItem
  split
  · exact ⟨h1, h2, h3, h4, h5, h6, h7⟩
  · split
    case h_2 => exact ⟨h1, h2, h3, h4, h5, h6, h7⟩
    case h_1 exp img kws cns hexp himg hkws hcns =>
      have hfreshid : itemIdOf db.nextItemId ∉ db.items.map (fun i => i.id) := by
        intro hmem
        rcases List.mem_map.mp hmem with ⟨i, himem, hiid⟩
        rcases h2 i himem with ⟨k, hk, hik⟩
        have : k = db.nextItemId := itemIdOf_inj (by rw [← hik, hiid])
        subst this
        exact absurd (List.mem_range.mp hk) (lt_irrefl _)
      have h1' : (((db.items ++
          [(⟨itemIdOf db.nextItemId, asString (getField body "name"), exp,
            asInt (getField body "quantity"), img, kws,
            asString (getField body "placement"), false, now, now⟩ : FoodItem)]).map
          (fun i => i.id))).Nodup := by
        rw [List.map_append]
        rw [List.nodup_append]
        refine ⟨h1, by simp, ?_⟩
        simpa using fun hmem => hfreshid hmem
      have h2' : ∀ i ∈ db.items ++
          [(⟨itemIdOf db.nextItemId, asString (getField body "name"), exp,
            asInt (getField body "quantity"), img, kws,
            asString (getField body "placement"), false, now, now⟩ : FoodItem)],
          ∃ k ∈ List.range (db.nextItemId + 1), i.id = itemIdOf k := by
        intro i hi
        rcases List.mem_append.mp hi with hi | hi
        · rcases h2 i hi with ⟨k, hk, hik⟩
          exact ⟨k, List.mem_range.mpr (Nat.lt_succ_of_lt (List.mem_range.mp hk)), hik⟩
        · rcases List.mem_singleton.mp hi with rfl
          exact ⟨db.nextItemId, List.mem_range.mpr (Nat.lt_succ_self _), rfl⟩
      have h7' : ∀ l ∈ db.links, ∃ k ∈ List.range (db.nextItemId + 1),
          l.foodItemId = itemIdOf k := by
        intro l hl
        rcases h7 l hl with ⟨k, hk, hlk⟩
        exact ⟨k, List.mem_range.mpr (Nat.lt_succ_of_lt (List.mem_range.mp hk)), hlk⟩
      dsimp only
      split
      case h_2 => exact ⟨h1, h2, h3, h4, h5, h6, h7⟩
      case h_1 db2 hadd =>
        rcases addLinks_spec cns _ _ _ hadd h3 h4 h5 h6 with
          ⟨hit, hni, _, _, hids', hnames', hfresh', hlinksN', ⟨nl, hlinks', hnlitem, _⟩, _⟩
        refine ⟨?_, ?_, hids', hnames', hfresh', hlinksN', ?_⟩
        · rw [hit]; exact h1'
        · rw [hit, hni]; exact h2'
        · rw [hlinks', hni]
          intro lk hlk
          rcases List.mem_append.mp hlk with hlk | hlk
          · exact h7' lk hlk
          · rw [hnlitem lk hlk]
            exact ⟨db.nextItemId, List.mem_range.mpr (Nat.lt_succ_self _), rfl⟩

/-- Every state reachable from the empty store through the handlers
satisfies the schema invariants. -/
theorem reachable_WF {db : DB} (h : Reachable db) : WF db := by
  induction h with
  | init => exact ⟨by simp [emptyDB], by simp [emptyDB], by simp [emptyDB],
      by simp [emptyDB], by simp [emptyDB], by simp [emptyDB], by simp [emptyDB]⟩
  | post db body now _ ih => exact postFoodItem_WF db body now ih
  | put db body now _ ih => exact putFoodItem_WF db body now ih
  | putTx db body now _ ih => exact putFoodItemTx_WF db body now ih
  | del db body fileOk _ ih => exact deleteFoodItem_WF db body fileOk ih
  | delTx db body fileOk _ ih => exact deleteFoodItemTx_WF db body fileOk ih

/-! ### Claim C7 -/

/-- Claim C7: for every state of the store, the collection read returns
exactly the items whose hidden flag is false (as a permutation-exact
multiset, with a membership characterization), ordered by ascending
expiration date. -/
theorem getAll_visible_sorted (db : DB) :
    (getAllFoodItems db).Perm (db.items.filter (fun i => !i.hidden)) ∧
    List.Sorted expLE (getAllFoodItems db) ∧
    (∀ i, i ∈ getAllFoodItems db ↔ i ∈ db.items ∧ i.hidden = false) := by
  refine ⟨sortByExpiration_perm _, sortByExpiration_sorted _, ?_⟩
  intro i
  unfold getAllFoodItems
  rw [(sortByExpiration_perm _).mem_iff, List.mem_filter]
  simp

/-! ### Claim C9 -/

/-- Claim C9: a stored item whose hidden flag is true is returned by the
single-item read (no hidden filter on `findUnique`) yet excluded from the
collection read. -/
theorem hidden_item_asymmetry (db : DB) (item : FoodItem)
    (hnd : (db.items.map (fun i => i.id)).Nodup)
    (hmem : item ∈ db.items) (hhid : item.hidden = true) :
    getFoodItemById db item.id = (200, some item) ∧ item ∉ getAllFoodItems db := by
  constructor
  · unfold getFoodItemById
    rw [find?_eq_of_nodup_map (fun i => i.id) hnd hmem]
  · intro hin
    unfold getAllFoodItems at hin
    rw [(sortByExpiration_perm _).mem_iff, List.mem_filter] at hin
    rw [hhid] at hin
    exact absurd hin.2 (by simp)

theorem hidden_item_asymmetry_witness :
    (hiddenItemDB.items.map (fun i => i.id)).Nodup ∧
    hiddenItem ∈ hiddenItemDB.items ∧ hiddenItem.hidden = true ∧
    (getFoodItemById hiddenItemDB hiddenItem.id = (200, some hiddenItem) ∧
      hiddenItem ∉ getAllFoodItems hiddenItemDB) :=
  ⟨by decide, by decide, by decide,
    hidden_item_asymmetry hiddenItemDB hiddenItem (by decide) (by decide) (by decide)⟩

/-! ### Claim C1 (corrected) -/

/-- Claim C1 counterexample: the PUT body `{id, quantity: 0}` on an
existing item whose stored quantity is 2 passes validation (the update
validator checks only that id is a string), the update returns 200, and
the stored quantity becomes 0 — it is not left at its prior value. -/
theorem update_quantity_zero_not_rejected :
    isValidUpdateBody qtyZeroConcreteBody = true ∧
    ((oneItemDB.items.find? (fun x => x.id == "i")).map (fun x => x.quantity) = some 2) ∧
    (putFoodItem oneItemDB qtyZeroConcreteBody 5).status = 200 ∧
    ((putFoodItem oneItemDB qtyZeroConcreteBody 5).db.items.find?
      (fun x => x.id == "i")).map (fun x => x.quantity) = some 0 := by
  refine ⟨by decide, by decide, by decide, by decide⟩

/-- The PUT body `{id: i, quantity: 0}`. -/
def qtyZeroBody (i : String) : JSValue :=
  .object [("id", .string i), ("quantity", .number 0)]

/-- Claim C1 amended: an update request whose body carries quantity 0 on an
existing item passes validation, succeeds with 200, and overwrites the
stored quantity with 0. -/
theorem update_quantity_zero_applied (db : DB) (now : Int) (i : String) (item : FoodItem)
    (h : db.items.find? (fun x => x.id == i) = some item) :
    isValidUpdateBody (qtyZeroBody i) = true ∧
    (putFoodItem db (qtyZeroBody i) now).status = 200 ∧
    ((putFoodItem db (qtyZeroBody i) now).db.items.find? (fun x => x.id == i)).map
      (fun x => x.quantity) = some 0 := by
  have happ : applyFields item (qtyZeroBody i) now =
      some { item with quantity := 0, updatedAt := now } := rfl
  have hstep : putUpdateStep db i (qtyZeroBody i) now none =
      some { db with items := db.items.map (fun x =>
        if x.id == i then { item with quantity := 0, updatedAt := now } else x) } := by
    unfold putUpdateStep
    rw [h]
    dsimp only
    rw [happ]
  have hput : putFoodItem db (qtyZeroBody i) now =
      ⟨200, { db with items := db.items.map (fun x =>
        if x.id == i then { item with quantity := 0, updatedAt := now } else x) }⟩ := by
    show (match putUpdateStep db i (qtyZeroBody i) now none with
          | some db2 => (⟨200, db2⟩ : PutResult)
          | none => ⟨500, db⟩) = _
    rw [hstep]
  refine ⟨rfl, ?_, ?_⟩
  · rw [hput]
  · rw [hput]
    rw [@find?_map_replace db.items i item { item with quantity := 0, updatedAt := now } h rfl]
    rfl

theorem update_quantity_zero_applied_witness :
    oneItemDB.items.find? (fun x => x.id == "i") =
      some ⟨"i", "Milk", 100, 2, none, [], "Fridge", false, 0, 0⟩ ∧
    (isValidUpdateBody (qtyZeroBody "i") = true ∧
      (putFoodItem oneItemDB (qtyZeroBody "i") 5).status = 200 ∧
      ((putFoodItem oneItemDB (qtyZeroBody "i") 5).db.items.find?
        (fun x => x.id == "i")).map (fun x => x.quantity) = some 0) :=
  ⟨by decide, update_quantity_zero_applied oneItemDB 5 "i"
    ⟨"i", "Milk", 100, 2, none, [], "Fridge", false, 0, 0⟩ (by decide)⟩

/-! ### Claim C2 (corrected) -/

/-- Claim C2 counterexample: a PUT carrying a string id that matches no
stored item returns 500 from both versions of the handler, not the claimed
404 — the PUT handlers have no not-found mapping for the update error. -/
theorem put_unknown_id_not_404 :
    isValidUpdateBody unknownIdBody = true ∧
    (∀ x ∈ oneItemDB.items, x.id ≠ "iii") ∧
    (putFoodItem oneItemDB unknownIdBody 0).status = 500 ∧
    (putFoodItemTx oneItemDB unknownIdBody 0).status = 500 ∧
    (putFoodItem oneItemDB unknownIdBody 0).status ≠ 404 ∧
    (putFoodItemTx oneItemDB unknownIdBody 0).status ≠ 404 := by
  refine ⟨by decide, by decide, by decide, by decide, by decide, by decide⟩

/-- Claim C2 amended: a PUT whose body is valid (id is a string) but whose
id matches no stored item returns 500 (the generic internal-failure path)
from both handler versions, and the transactional version leaves the store
unchanged; the missing-id case still returns 400. -/
theorem put_unknown_id_500 (db : DB) (body : JSValue) (now : Int)
    (hv : isValidUpdateBody body = true)
    (hunk : db.items.find? (fun x => x.id == asString (getField body "id")) = none) :
    (putFoodItem db body now).status = 500 ∧
    (putFoodItemTx db body now).status = 500 ∧
    (putFoodItemTx db body now).db = db ∧
    (∀ body2, isValidUpdateBody body2 = false → putFoodItem db body2 now = ⟨400, db⟩) := by
  have hstep : ∀ db' : DB, db'.items = db.items →
      ∀ cns, putUpdateStep db' (asString (getField body "id")) body now cns = none := by
    intro db' hdb cns
    unfold putUpdateStep
    rw [hdb, hunk]
  refine ⟨?_, ?_, ?_, ?_⟩
  · unfold putFoodItem
    rw [hv]
    simp only [Bool.not_true, Bool.false_eq_true, if_false]
    split
    · rw [hstep db rfl none]
    · split
      · rfl
      case h_2 cns hdec =>
        have hs := hstep { db with links := db.links.filter (fun l => !(l.foodItemId == asString (getField body "id"))) } rfl (some cns)
        rw [hs]
  · unfold putFoodItemTx
    rw [hv]
    simp only [Bool.not_true, Bool.false_eq_true, if_false]
    split
    · rw [hstep db rfl none]
    · split
      · rfl
      case h_2 cns hdec =>
        have hs := hstep { db with links := db.links.filter (fun l => !(l.foodItemId == asString (getField body "id"))) } rfl (some cns)
        rw [hs]
  · unfold putFoodItemTx
    rw [hv]
    simp only [Bool.not_true, Bool.false_eq_true, if_false]
    split
    · rw [hstep db rfl none]
    · split
      · rfl
      case h_2 cns hdec =>
        have hs := hstep { db with links := db.links.filter (fun l => !(l.foodItemId == asString (getField body "id"))) } rfl (some cns)
        rw [hs]
  · intro body2 hbad
    unfold putFoodItem
    rw [hbad]
    rfl

/-! ### Claim C5 (corrected) -/

theorem jsTypeof_string_iff (v : JSValue) :
    jsTypeof v = "string" ↔ ∃ s, v = JSValue.string s := by
  cases v <;> simp [jsTypeof]

theorem jsTypeof_number_iff (v : JSValue) :
    jsTypeof v = "number" ↔ ∃ q, v = JSValue.number q := by
  cases v <;> simp [jsTypeof]

/-- Claim C5 amended: the create-validation verdict holds precisely for
non-null object-typed bodies whose name, expirationDate and placement
fields are strings and whose quantity field is a number — the validator
does not check that expirationDate parses as a calendar date; it is a
total boolean predicate, and a request failing it is answered 400 with no
storage access and no state change. -/
theorem create_validator_characterization (body : JSValue) (db : DB) (now : Int) :
    (isValidCreateBody body = true ↔
      (jsTypeof body = "object" ∧ isNullValue body = false ∧
       (∃ s, getField body "name" = JSValue.string s) ∧
       (∃ s, getField body "expirationDate" = JSValue.string s) ∧
       (∃ q, getField body "quantity" = JSValue.number q) ∧
       (∃ s, getField body "placement" = JSValue.string s))) ∧
    (isValidCreateBody body = false →
      postFoodItem db body now = ⟨400, db, none, []⟩) := by
  constructor
  · cases body <;>
      simp [isValidCreateBody, jsTypeof, isNullValue, getField, and_assoc,
        ← jsTypeof_string_iff, ← jsTypeof_number_iff]
  · intro h
    unfold postFoodItem
    rw [h]
    rfl

theorem create_validator_characterization_witness :
    (isValidCreateBody (JSValue.number 3) = false →
      postFoodItem emptyDB (JSValue.number 3) 0 = ⟨400, emptyDB, none, []⟩) ∧
    isValidCreateBody (JSValue.number 3) = false ∧
    postFoodItem emptyDB (JSValue.number 3) 0 = ⟨400, emptyDB, none, []⟩ :=
  ⟨(create_validator_characterization (JSValue.number 3) emptyDB 0).2, by decide,
    (create_validator_characterization (JSValue.number 3) emptyDB 0).2 (by decide)⟩

/-- Claim C5 counterexample: a body whose expirationDate is a string that
does not parse as a calendar date still passes the create validator — the
"only holds" direction of the claim fails — and the request then reaches
storage and fails there with 500, not the claimed client error. -/
theorem create_validator_no_date_check :
    isValidCreateBody garbageDateCreateBody = true ∧
    jsDateParse (asString (getField garbageDateCreateBody "expirationDate")) = none ∧
    (postFoodItem emptyDB garbageDateCreateBody 0).status = 500 ∧
    (postFoodItem emptyDB garbageDateCreateBody 0).status ≠ 400 := by
  refine ⟨by decide, by decide, by decide, by decide⟩

/-! ### Claim C6 (corrected) -/

/-- Claim C6 counterexample: in the original DELETE handler the external
file deletion is invoked before the database delete — the trace shows the
fileDelete event preceding the dbDelete event — contradicting "invoked
only after the database delete commits". -/
theorem delete_file_before_db_delete :
    (deleteFoodItem imageItemDB idOnlyBody true).trace =
      [Event.dbFind, Event.fileDelete "abc", Event.dbDelete] ∧
    ¬ fileDeleteAfterDbDelete (deleteFoodItem imageItemDB idOnlyBody true).trace := by
  refine ⟨by decide, by decide⟩

theorem fileDeleteAfterDbDelete_find_del (k : String) :
    fileDeleteAfterDbDelete [Event.dbFind, Event.dbDelete, Event.fileDelete k] := by
  intro i j hi hj
  fin_cases i <;> fin_cases j <;> simp_all [isFileDelete, List.get]

theorem fileDeleteAfterDbDelete_find_del_nokey :
    fileDeleteAfterDbDelete [Event.dbFind, Event.dbDelete] := by decide

/-- Claim C6 amended: for every delete of an existing item holding an
image reference, the transactional handler dispatches the file deletion
only after the database delete, while the original handler invokes it
before the database delete; in both versions the file-storage outcome
never influences the result — the row is removed and the handler returns
200 with the deleted id regardless. -/
theorem delete_file_decoupled (db : DB) (body : JSValue) (ok1 ok2 : Bool)
    (item : FoodItem) (url : String)
    (hv : isValidDeleteBody body = true)
    (hfound : db.items.find? (fun x => x.id == asString (getField body "id")) = some item)
    (himg : item.imageUrl = some url) :
    fileDeleteAfterDbDelete (deleteFoodItemTx db body ok1).trace ∧
    deleteFoodItem db body ok1 = deleteFoodItem db body ok2 ∧
    deleteFoodItemTx db body ok1 = deleteFoodItemTx db body ok2 ∧
    (deleteFoodItem db body ok1).status = 200 ∧
    (deleteFoodItem db body ok1).deletedId = some item.id ∧
    (deleteFoodItemTx db body ok1).status = 200 ∧
    (deleteFoodItemTx db body ok1).deletedId = some item.id ∧
    (∀ x ∈ (deleteFoodItem db body ok1).db.items, ¬(x.id = item.id)) ∧
    (∀ x ∈ (deleteFoodItemTx db body ok1).db.items, ¬(x.id = item.id)) := by
  have hid : item.id = asString (getField body "id") := by
    have := List.find?_some hfound
    simpa using this
  have hforig : deleteFoodItem db body ok1 =
      ⟨200, { db with
          items := db.items.filter (fun i => !(i.id == asString (getField body "id"))),
          links := db.links.filter (fun l => !(l.foodItemId == asString (getField body "id"))) },
        some item.id,
        Event.dbFind :: (fileDeleteEvents item.imageUrl ++ [Event.dbDelete])⟩ := by
    unfold deleteFoodItem
    split
    case isTrue hcond => rw [hv] at hcond; simp at hcond
    case isFalse hcond =>
      dsimp only
      rw [hfound]
  have hftx : deleteFoodItemTx db body ok1 =
      ⟨200, { db with
          items := db.items.filter (fun i => !(i.id == asString (getField body "id"))),
          links := db.links.filter (fun l => !(l.foodItemId == asString (getField body "id"))) },
        some item.id,
        Event.dbFind :: (Event.dbDelete :: fileDeleteEvents item.imageUrl)⟩ := by
    unfold deleteFoodItemTx
    split
    case isTrue hcond => rw [hv] at hcond; simp at hcond
    case isFalse hcond =>
      dsimp only
      rw [hfound]
  refine ⟨?_, rfl, rfl, ?_, ?_, ?_, ?_, ?_, ?_⟩
  · rw [hftx, himg]
    unfold fileDeleteEvents
    dsimp only
    cases hk : extractFileKeyFromUrl url
    · dsimp only
      exact fileDeleteAfterDbDelete_find_del_nokey
    case some key =>
      dsimp only
      exact fileDeleteAfterDbDelete_find_del key
  · rw [hforig]
  · rw [hforig]
  · rw [hftx]
  · rw [hftx]
  · rw [hforig]
    intro x hx
    rw [List.mem_filter] at hx
    rw [hid]
    intro hexx
    rw [hexx] at hx
    simp at hx
  · rw [hftx]
    intro x hx
    rw [List.mem_filter] at hx
    rw [hid]
    intro hexx
    rw [hexx] at hx
    simp at hx

theorem delete_file_decoupled_witness :
    isValidDeleteBody idOnlyBody = true ∧
    imageItemDB.items.find? (fun x => x.id == asString (getField idOnlyBody "id")) =
      some ⟨"i", "Milk", 100, 2, some "https://utfs.io/f/abc", [], "Fridge", false, 0, 0⟩ ∧
    (fileDeleteAfterDbDelete (deleteFoodItemTx imageItemDB idOnlyBody true).trace ∧
      deleteFoodItem imageItemDB idOnlyBody true = deleteFoodItem imageItemDB idOnlyBody false ∧
      deleteFoodItemTx imageItemDB idOnlyBody true = deleteFoodItemTx imageItemDB idOnlyBody false ∧
      (deleteFoodItem imageItemDB idOnlyBody true).status = 200 ∧
      (deleteFoodItem imageItemDB idOnlyBody true).deletedId = some "i" ∧
      (deleteFoodItemTx imageItemDB idOnlyBody true).status = 200 ∧
      (deleteFoodItemTx imageItemDB idOnlyBody true).deletedId = some "i" ∧
      (∀ x ∈ (deleteFoodItem imageItemDB idOnlyBody true).db.items, ¬(x.id = "i")) ∧
      (∀ x ∈ (deleteFoodItemTx imageItemDB idOnlyBody true).db.items, ¬(x.id = "i"))) :=
  ⟨by decide, by decide,
    delete_file_decoupled imageItemDB idOnlyBody true false
      ⟨"i", "Milk", 100, 2, some "https://utfs.io/f/abc", [], "Fridge", false, 0, 0⟩
      "https://utfs.io/f/abc" (by decide) (by decide) (by decide)⟩

theorem put_unknown_id_500_witness :
    isValidUpdateBody unknownIdBody = true ∧
    oneItemDB.items.find? (fun x => x.id == asString (getField unknownIdBody "id")) = none ∧
    ((putFoodItem oneItemDB unknownIdBody 0).status = 500 ∧
      (putFoodItemTx oneItemDB unknownIdBody 0).status = 500 ∧
      (putFoodItemTx oneItemDB unknownIdBody 0).db = oneItemDB ∧
      (∀ body2, isValidUpdateBody body2 = false →
        putFoodItem oneItemDB body2 0 = ⟨400, oneItemDB⟩)) :=
  ⟨by decide, by decide, put_unknown_id_500 oneItemDB unknownIdBody 0 (by decide) (by decide)⟩

/-! ### Inversion lemmas for the success paths of PUT and POST -/

theorem addLinks_items : ∀ (cns : List String) (db db' : DB) (itemId : String),
    addLinks db itemId cns = some db' →
    db'.items = db.items ∧ db'.nextItemId = db.nextItemId := by
  intro cns
  induction cns with
  | nil =>
    intro db db' itemId h
    simp only [addLinks] at h
    injection h with h
    subst h
    exact ⟨rfl, rfl⟩
  | cons nm rest ih =>
    intro db db' itemId h
    simp only [addLinks] at h
    rcases hfc : findOrCreateCategory db nm with ⟨db1, catId⟩
    rw [hfc] at h
    simp only at h
    split at h
    · cases h
    · have hrec := ih _ _ _ h
      have hfi : db1.items = db.items ∧ db1.nextItemId = db.nextItemId := by
        unfold findOrCreateCategory at hfc
        split at hfc <;> (injection hfc with h1 h2; subst h1; exact ⟨rfl, rfl⟩)
      exact ⟨hrec.1.trans hfi.1, hrec.2.trans hfi.2⟩

/-- Fields absent from the body are left unchanged by the field patch. -/
theorem applyFields_frame {item item2 : FoodItem} {body : JSValue} {now : Int}
    (h : applyFields item body now = some item2) :
    (getField body "name" = JSValue.undefined → item2.name = item.name) ∧
    (getField body "expirationDate" = JSValue.undefined →
      item2.expirationDate = item.expirationDate) ∧
    (getField body "quantity" = JSValue.undefined → item2.quantity = item.quantity) ∧
    (getField body "imageUrl" = JSValue.undefined → item2.imageUrl = item.imageUrl) ∧
    (getField body "keywords" = JSValue.undefined → item2.keywords = item.keywords) ∧
    (getField body "placement" = JSValue.undefined → item2.placement = item.placement) ∧
    (getField body "hidden" = JSValue.undefined → item2.hidden = item.hidden) := by
  unfold applyFields at h
  split at h
  case h_1 nm exp qty img kws plc hid hnm hexp hqty himg hkws hplc hhid =>
    injection h with h
    subst h
    refine ⟨?_, ?_, ?_, ?_, ?_, ?_, ?_⟩ <;> intro habs
    · rw [habs] at hnm
      simp only [decodeOptString] at hnm
      injection hnm with hnm
      subst hnm
      rfl
    · rw [habs] at hexp
      simp only [decodeOptDate] at hexp
      injection hexp with hexp
      subst hexp
      rfl
    · rw [habs] at hqty
      simp only [decodeOptNumber] at hqty
      injection hqty with hqty
      subst hqty
      rfl
    · rw [habs] at himg
      simp only [decodeOptNullableString] at himg
      injection himg with himg
      subst himg
      rfl
    · rw [habs] at hkws
      simp only [decodeOptStringList] at hkws
      injection hkws with hkws
      subst hkws
      rfl
    · rw [habs] at hplc
      simp only [decodeOptString] at hplc
      injection hplc with hplc
      subst hplc
      rfl
    · rw [habs] at hhid
      simp only [decodeOptBool] at hhid
      injection hhid with hhid
      subst hhid
      rfl
  · cases h

theorem putUpdateStep_inv {db db' : DB} {id : String} {body : JSValue} {now : Int}
    {cns : Option (List String)} {item : FoodItem}
    (h : putUpdateStep db id body now cns = some db')
    (hfind : db.items.find? (fun x => x.id == id) = some item) :
    ∃ item2, applyFields item body now = some item2 ∧
      db'.items.find? (fun x => x.id == id) = some item2 ∧
      (cns = none → db' = { db with items := db.items.map (fun x =>
        if x.id == id then item2 else x) }) ∧
      (∀ l, cns = some l → addLinks { db with items := db.items.map (fun x =>
        if x.id == id then item2 else x) } id l = some db') := by
  unfold putUpdateStep at h
  rw [hfind] at h
  dsimp only at h
  cases happ : applyFields item body now with
  | none => rw [happ] at h; cases h
  | some item2 =>
    rw [happ] at h
    dsimp only at h
    rcases applyFields_spec happ with ⟨hid2, _, _⟩
    cases cns with
    | none =>
      dsimp only at h
      injection h with h
      refine ⟨item2, rfl, ?_, fun _ => h.symm, by intro l hl; cases hl⟩
      rw [← h]
      exact find?_map_replace hfind hid2
    | some l =>
      dsimp only at h
      refine ⟨item2, rfl, ?_, ?_, ?_⟩
      · have hit := (addLinks_items l _ _ _ h).1
        rw [hit]
        exact find?_map_replace hfind hid2
      · intro hn; cases hn
      · intro l2 hl2
        injection hl2 with hl2
        subst hl2
        exact h

theorem putFoodItem_200_inv {db : DB} {body : JSValue} {now : Int} {db2 : DB}
    (h : putFoodItem db body now = ⟨200, db2⟩) :
    (isUndef (getField body "categoryNames") = true ∧
      putUpdateStep db (asString (getField body "id")) body now none = some db2) ∨
    (∃ cns, decodeCatsPresent (getField body "categoryNames") = some cns ∧
      putUpdateStep { db with links := db.links.filter (fun l =>
          !(l.foodItemId == asString (getField body "id"))) }
        (asString (getField body "id")) body now (some cns) = some db2) := by
  unfold putFoodItem at h
  split at h
  · injection h with h1 h2
    simp at h1
  · dsimp only at h
    split at h
    case isTrue hu =>
      split at h
      case h_1 db3 hstep =>
        injection h with h1 h2
        subst h2
        exact Or.inl ⟨hu, hstep⟩
      · injection h with h1 h2
        simp at h1
    case isFalse hu =>
      split at h
      · injection h with h1 h2
        simp at h1
      case h_2 cns hdec =>
        split at h
        case h_1 db3 hstep =>
          injection h with h1 h2
          subst h2
          exact Or.inr ⟨cns, hdec, hstep⟩
        · injection h with h1 h2
          simp at h1

theorem putFoodItemTx_200_inv {db : DB} {body : JSValue} {now : Int} {db2 : DB}
    (h : putFoodItemTx db body now = ⟨200, db2⟩) :
    (isUndef (getField body "categoryNames") = true ∧
      putUpdateStep db (asString (getField body "id")) body now none = some db2) ∨
    (∃ cns, decodeCatsPresent (getField body "categoryNames") = some cns ∧
      putUpdateStep { db with links := db.links.filter (fun l =>
          !(l.foodItemId == asString (getField body "id"))) }
        (asString (getField body "id")) body now (some cns) = some db2) := by
  unfold putFoodItemTx at h
  split at h
  · injection h with h1 h2
    simp at h1
  · dsimp only at h
    split at h
    case isTrue hu =>
      split at h
      case h_1 db3 hstep =>
        injection h with h1 h2
        subst h2
        exact Or.inl ⟨hu, hstep⟩
      · injection h with h1 h2
        simp at h1
    case isFalse hu =>
      split at h
      · injection h with h1 h2
        simp at h1
      case h_2 cns hdec =>
        split at h
        case h_1 db3 hstep =>
          injection h with h1 h2
          subst h2
          exact Or.inr ⟨cns, hdec, hstep⟩
        · injection h with h1 h2
          simp at h1

theorem putUpdateStep_some_inv {db db' : DB} {id : String} {body : JSValue} {now : Int}
    {cns : Option (List String)} (h : putUpdateStep db id body now cns = some db') :
    ∃ item, db.items.find? (fun x => x.id == id) = some item := by
  unfold putUpdateStep at h
  split at h
  · cases h
  case h_2 item hfind => exact ⟨item, hfind⟩

theorem decodeCatsPresent_not_undef {v : JSValue} {l : List String}
    (h : decodeCatsPresent v = some l) : isUndef v = false := by
  cases v <;> simp [isUndef] <;> simp [decodeCatsPresent] at h

theorem filterMap_eq_of_map_some {α β : Type} {f : α → Option β} :
    ∀ {l : List α} {l2 : List β}, l.map f = l2.map some → l.filterMap f = l2 := by
  intro l
  induction l with
  | nil =>
    intro l2 h
    cases l2 with
    | nil => rfl
    | cons b t2 => simp at h
  | cons a t ih =>
    intro l2 h
    cases l2 with
    | nil => simp at h
    | cons b t2 =>
      simp only [List.map_cons, List.cons.injEq] at h
      rw [List.filterMap_cons_some h.1, ih h.2]

/-! ### Claim C8 -/

/-- Claim C8: sparse-patch update semantics — for a successful update of an
existing item, every mutable field absent from the request body retains
its prior value (name, expirationDate, quantity, imageUrl, keywords,
placement, hidden, and the category links and categories when
categoryNames is absent), the id and createdAt are preserved, and
updatedAt is refreshed to the time of the mutation. -/
theorem put_sparse_patch (db : DB) (body : JSValue) (now : Int) (i : String)
    (item : FoodItem) (db2 : DB)
    (hid : getField body "id" = JSValue.string i)
    (hfind : db.items.find? (fun x => x.id == i) = some item)
    (hrun : putFoodItem db body now = ⟨200, db2⟩) :
    ∃ item2, db2.items.find? (fun x => x.id == i) = some item2 ∧
      item2.id = item.id ∧ item2.createdAt = item.createdAt ∧ item2.updatedAt = now ∧
      (getField body "name" = JSValue.undefined → item2.name = item.name) ∧
      (getField body "expirationDate" = JSValue.undefined →
        item2.expirationDate = item.expirationDate) ∧
      (getField body "quantity" = JSValue.undefined → item2.quantity = item.quantity) ∧
      (getField body "imageUrl" = JSValue.undefined → item2.imageUrl = item.imageUrl) ∧
      (getField body "keywords" = JSValue.undefined → item2.keywords = item.keywords) ∧
      (getField body "placement" = JSValue.undefined → item2.placement = item.placement) ∧
      (getField body "hidden" = JSValue.undefined → item2.hidden = item.hidden) ∧
      (getField body "categoryNames" = JSValue.undefined →
        db2.links = db.links ∧ db2.categories = db.categories) := by
  have hasid : asString (getField body "id") = i := by rw [hid]; rfl
  rcases putFoodItem_200_inv hrun with ⟨hu, hstep⟩ | ⟨cns, hdec, hstep⟩
  · rw [hasid] at hstep
    rcases putUpdateStep_inv hstep hfind with ⟨item2, happ, hfound2, hnone, _⟩
    rcases applyFields_spec happ with ⟨hid2, hcr, hup⟩
    rcases applyFields_frame happ with ⟨f1, f2, f3, f4, f5, f6, f7⟩
    refine ⟨item2, hfound2, hid2, hcr, hup, f1, f2, f3, f4, f5, f6, f7, ?_⟩
    intro _
    rw [hnone rfl]
    exact ⟨rfl, rfl⟩
  · rw [hasid] at hstep
    have hfind1 : ({ db with links := db.links.filter (fun l =>
        !(l.foodItemId == i)) } : DB).items.find? (fun x => x.id == i) = some item := hfind
    rcases putUpdateStep_inv hstep hfind1 with ⟨item2, happ, hfound2, _, _⟩
    rcases applyFields_spec happ with ⟨hid2, hcr, hup⟩
    rcases applyFields_frame happ with ⟨f1, f2, f3, f4, f5, f6, f7⟩
    refine ⟨item2, hfound2, hid2, hcr, hup, f1, f2, f3, f4, f5, f6, f7, ?_⟩
    intro hcats
    rw [hcats] at hdec
    simp [decodeCatsPresent] at hdec

theorem put_sparse_patch_witness :
    getField qtyFiveBody "id" = JSValue.string "i" ∧
    oneItemDB.items.find? (fun x => x.id == "i") =
      some ⟨"i", "Milk", 100, 2, none, [], "Fridge", false, 0, 0⟩ ∧
    putFoodItem oneItemDB qtyFiveBody 7 = ⟨200, (putFoodItem oneItemDB qtyFiveBody 7).db⟩ ∧
    (∃ item2, (putFoodItem oneItemDB qtyFiveBody 7).db.items.find?
        (fun x => x.id == "i") = some item2 ∧
      item2.id = (⟨"i", "Milk", 100, 2, none, [], "Fridge", false, 0, 0⟩ : FoodItem).id ∧
      item2.createdAt =
        (⟨"i", "Milk", 100, 2, none, [], "Fridge", false, 0, 0⟩ : FoodItem).createdAt ∧
      item2.updatedAt = 7 ∧
      (getField qtyFiveBody "name" = JSValue.undefined →
        item2.name = (⟨"i", "Milk", 100, 2, none, [], "Fridge", false, 0, 0⟩ : FoodItem).name) ∧
      (getField qtyFiveBody "expirationDate" = JSValue.undefined →
        item2.expirationDate =
          (⟨"i", "Milk", 100, 2, none, [], "Fridge", false, 0, 0⟩ : FoodItem).expirationDate) ∧
      (getField qtyFiveBody "quantity" = JSValue.undefined →
        item2.quantity =
          (⟨"i", "Milk", 100, 2, none, [], "Fridge", false, 0, 0⟩ : FoodItem).quantity) ∧
      (getField qtyFiveBody "imageUrl" = JSValue.undefined →
        item2.imageUrl =
          (⟨"i", "Milk", 100, 2, none, [], "Fridge", false, 0, 0⟩ : FoodItem).imageUrl) ∧
      (getField qtyFiveBody "keywords" = JSValue.undefined →
        item2.keywords =
          (⟨"i", "Milk", 100, 2, none, [], "Fridge", false, 0, 0⟩ : FoodItem).keywords) ∧
      (getField qtyFiveBody "placement" = JSValue.undefined →
        item2.placement =
          (⟨"i", "Milk", 100, 2, none, [], "Fridge", false, 0, 0⟩ : FoodItem).placement) ∧
      (getField qtyFiveBody "hidden" = JSValue.undefined →
        item2.hidden =
          (⟨"i", "Milk", 100, 2, none, [], "Fridge", false, 0, 0⟩ : FoodItem).hidden) ∧
      (getField qtyFiveBody "categoryNames" = JSValue.undefined →
        (putFoodItem oneItemDB qtyFiveBody 7).db.links = oneItemDB.links ∧
        (putFoodItem oneItemDB qtyFiveBody 7).db.categories = oneItemDB.categories)) :=
  ⟨rfl, by decide, by decide,
    put_sparse_patch oneItemDB qtyFiveBody 7 "i"
      ⟨"i", "Milk", 100, 2, none, [], "Fridge", false, 0, 0⟩
      (putFoodItem oneItemDB qtyFiveBody 7).db rfl (by decide) (by decide)⟩

/-! ### Claim C3 (corrected) -/

/-- Claim C3 counterexample: in the original PUT, an update supplying
categoryNames whose update call then fails (here: an ill-typed quantity)
has already committed the junction deleteMany, so the handler returns 500
while the item's junction rows are gone — the caller observes the item
with missing links even though the update failed. -/
theorem put_links_lost_on_failure :
    linkedItemDB.links = [⟨"i", "c"⟩] ∧
    (putFoodItem linkedItemDB illTypedQtyBody 5).status = 500 ∧
    (putFoodItem linkedItemDB illTypedQtyBody 5).db.items = linkedItemDB.items ∧
    (putFoodItem linkedItemDB illTypedQtyBody 5).db.links = [] := by
  refine ⟨by decide, by decide, by decide, by decide⟩

/-- Claim C3 amended: in the transactional PUT the category replacement is
atomic with the field update — any non-200 outcome leaves the state
exactly as before, and a successful update that supplied a categoryNames
list leaves the item with precisely one junction row per supplied name, in
order, each resolving to that name (no stale and no missing links).  In
the original PUT the junction deletion commits separately and survives a
failed update. -/
theorem putTx_category_replace_atomic (db : DB) (body : JSValue) (now : Int) :
    ((putFoodItemTx db body now).status ≠ 200 → (putFoodItemTx db body now).db = db) ∧
    (∀ cns db2, WF db →
      decodeCatsPresent (getField body "categoryNames") = some cns →
      putFoodItemTx db body now = ⟨200, db2⟩ →
      (db2.links.filter (fun l => l.foodItemId == asString (getField body "id"))).map
        (linkName db2) = cns.map some) := by
  constructor
  · unfold putFoodItemTx
    split
    · intro _; rfl
    · dsimp only
      split
      · split
        · intro hne; exact absurd rfl hne
        · intro _; rfl
      · split
        · intro _; rfl
        · split
          · intro hne; exact absurd rfl hne
          · intro _; rfl
  · intro cns db2 hwf hdec hrun
    obtain ⟨h1, h2, h3, h4, h5, h6, h7⟩ := hwf
    rcases putFoodItemTx_200_inv hrun with ⟨hu, _⟩ | ⟨cns2, hdec2, hstep⟩
    · rw [decodeCatsPresent_not_undef hdec] at hu
      cases hu
    · rw [hdec] at hdec2
      injection hdec2 with hdec2
      subst hdec2
      rcases putUpdateStep_some_inv hstep with ⟨item, hfind1⟩
      rcases putUpdateStep_inv hstep hfind1 with ⟨item2, happ, _, _, hlinksf⟩
      have hadd := hlinksf cns rfl
      rcases addLinks_spec cns _ _ _ hadd h3 h4 h5 (List.Nodup.filter _ h6) with
        ⟨_, _, _, _, _, _, _, _, ⟨nl, hlinks2, hnlitem, hnlnames⟩, _⟩
      rw [hlinks2]
      rw [List.filter_append]
      have hold : (db.links.filter (fun l =>
          !(l.foodItemId == asString (getField body "id")))).filter
          (fun l => l.foodItemId == asString (getField body "id")) = [] := by
        rw [List.filter_eq_nil_iff]
        intro a ha
        rw [List.mem_filter] at ha
        intro hcon
        rw [hcon] at ha
        simp at ha
      have hnew : nl.filter (fun l => l.foodItemId == asString (getField body "id")) = nl := by
        rw [List.filter_eq_self]
        intro a ha
        rw [hnlitem a ha]
        simp
      rw [hold, hnew, List.nil_append, hnlnames]

theorem putTx_category_replace_atomic_witness :
    ((putFoodItemTx linkedItemDB illTypedQtyBody 5).status ≠ 200 ∧
      (putFoodItemTx linkedItemDB illTypedQtyBody 5).db = linkedItemDB) ∧
    (WF linkedItemDB ∧
      decodeCatsPresent (getField fruitCatsBody "categoryNames") = some ["Fruit"] ∧
      putFoodItemTx linkedItemDB fruitCatsBody 5 =
        ⟨200, (putFoodItemTx linkedItemDB fruitCatsBody 5).db⟩ ∧
      ((putFoodItemTx linkedItemDB fruitCatsBody 5).db.links.filter (fun l =>
        l.foodItemId == asString (getField fruitCatsBody "id"))).map
        (linkName (putFoodItemTx linkedItemDB fruitCatsBody 5).db) = [some "Fruit"]) :=
  ⟨⟨by decide, (putTx_category_replace_atomic linkedItemDB illTypedQtyBody 5).1 (by decide)⟩,
    by decide, by decide, by decide,
    (putTx_category_replace_atomic linkedItemDB fruitCatsBody 5).2 ["Fruit"]
      (putFoodItemTx linkedItemDB fruitCatsBody 5).db
      (by decide) (by decide) (by decide)⟩

/-! ### POST success inversion -/

theorem postFoodItem_201_inv {db : DB} {body : JSValue} {now : Int} {db2 : DB}
    {cid : Option String} {tr : List Event}
    (h : postFoodItem db body now = ⟨201, db2, cid, tr⟩) :
    cid = some (itemIdOf db.nextItemId) ∧
    ∃ exp img kws cns,
      jsDateParse (asString (getField body "expirationDate")) = some exp ∧
      decodeCreateImageUrl (getField body "imageUrl") = some img ∧
      decodeCreateList (getField body "keywords") = some kws ∧
      decodeCreateList (getField body "categoryNames") = some cns ∧
      addLinks { db with
          items := db.items ++ [⟨itemIdOf db.nextItemId, asString (getField body "name"),
            exp, asInt (getField body "quantity"), img, kws,
            asString (getField body "placement"), false, now, now⟩],
          nextItemId := db.nextItemId + 1 }
        (itemIdOf db.nextItemId) cns = some db2 := by
  unfold postFoodItem at h
  split at h
  · injection h with h1 h2 h3 h4
    exact absurd h1 (by decide)
  · split at h
    case h_2 => injection h with h1 h2 h3 h4; exact absurd h1 (by decide)
    case h_1 exp img kws cns hexp himg hkws hcns =>
      dsimp only at h
      split at h
      case h_1 db3 hadd =>
        injection h with h1 h2 h3 h4
        subst h2
        exact ⟨h3.symm, exp, img, kws, cns, hexp, himg, hkws, hcns, hadd⟩
      case h_2 => injection h with h1 h2 h3 h4; exact absurd h1 (by decide)

/-! ### Claim C4 (corrected) -/

/-- Claim C4 counterexample: a create request whose categoryNames contains
the same name twice does not succeed with one link — the duplicate
junction insert violates the composite primary key, the whole create rolls
back, and the handler returns 500 with nothing created. -/
theorem create_duplicate_category_fails :
    isValidCreateBody dupCatsCreateBody = true ∧
    (postFoodItem emptyDB dupCatsCreateBody 0).status = 500 ∧
    (postFoodItem emptyDB dupCatsCreateBody 0).createdId = none ∧
    (postFoodItem emptyDB dupCatsCreateBody 0).db = emptyDB := by
  refine ⟨by decide, by decide, by decide, by decide⟩

/-- Claim C4 amended: a create whose categoryNames repeats a name fails
with 500 and creates nothing; a create that succeeds returns a category
list equal to the supplied categoryNames (success forces them pairwise
distinct), each supplied name ends with exactly one FoodCategory row
(find-or-create is idempotent, also across items), and every state
reachable through the handlers has at most one junction row per
(foodItemId, foodCategoryId) pair and at most one FoodCategory row per
name. -/
theorem create_category_links_exact :
    (∀ db, Reachable db → db.links.Nodup ∧
      (db.categories.map (fun c => c.name)).Nodup) ∧
    (∀ (db : DB) (body : JSValue) (now : Int) (cns : List String) (newId : String),
      WF db →
      decodeCreateList (getField body "categoryNames") = some cns →
      (postFoodItem db body now).status = 201 →
      (postFoodItem db body now).createdId = some newId →
      WF (postFoodItem db body now).db ∧
      categoryNamesOf (postFoodItem db body now).db newId = cns ∧
      ∀ nm ∈ cns,
        ((postFoodItem db body now).db.categories.map (fun c => c.name)).count nm = 1) := by
  constructor
  · intro db hr
    have hwf := reachable_WF hr
    exact ⟨hwf.2.2.2.2.2.1, hwf.2.2.2.1⟩
  · intro db body now cns newId hwf hdec h201 hid
    have hwf2 := postFoodItem_WF db body now hwf
    obtain ⟨h1, h2, h3, h4, h5, h6, h7⟩ := hwf
    rcases hres : postFoodItem db body now with ⟨st, db2, cid, tr⟩
    rw [hres] at h201 hid hwf2
    dsimp only at h201 hid hwf2
    subst h201
    rcases postFoodItem_201_inv hres with ⟨hcid, exp, img, kws, cns2, hexp, himg, hkws, hcns, hadd⟩
    rw [hdec] at hcns
    injection hcns with hcns
    subst hcns
    rw [hcid] at hid
    injection hid with hid
    rcases addLinks_spec cns _ _ _ hadd h3 h4 h5 h6 with
      ⟨_, _, _, _, _, hnames2, _, _, ⟨nl, hlinks2, hnlitem, hnlnames⟩, hex2⟩
    refine ⟨hwf2, ?_, ?_⟩
    · unfold categoryNamesOf
      rw [hlinks2]
      have hlinks1 : ({ db with
          items := db.items ++ [⟨itemIdOf db.nextItemId, asString (getField body "name"),
            exp, asInt (getField body "quantity"), img, kws,
            asString (getField body "placement"), false, now, now⟩],
          nextItemId := db.nextItemId + 1 } : DB).links = db.links := rfl
      rw [hlinks1, List.filter_append]
      have hold : db.links.filter (fun l => l.foodItemId == newId) = [] := by
        rw [List.filter_eq_nil_iff]
        intro a ha hbeq
        rcases h7 a ha with ⟨k, hk, hak⟩
        have hbe : a.foodItemId = newId := by simpa using hbeq
        rw [hak, ← hid] at hbe
        have := itemIdOf_inj hbe
        subst this
        exact absurd (List.mem_range.mp hk) (lt_irrefl _)
      have hnew : nl.filter (fun l => l.foodItemId == newId) = nl := by
        rw [List.filter_eq_self]
        intro a ha
        rw [hnlitem a ha, ← hid]
        simp
      rw [hold, hnew, List.nil_append]
      exact filterMap_eq_of_map_some hnlnames
    · intro nm hnm
      rcases hex2 nm hnm with ⟨c, hcmem, hcname⟩
      exact List.count_eq_one_of_mem hnames2 (List.mem_map.mpr ⟨c, hcmem, hcname⟩)

theorem create_category_links_exact_witness :
    (Reachable (postFoodItem emptyDB twoCatsCreateBody 0).db ∧
      ((postFoodItem emptyDB twoCatsCreateBody 0).db.links.Nodup ∧
        ((postFoodItem emptyDB twoCatsCreateBody 0).db.categories.map
          (fun c => c.name)).Nodup)) ∧
    (WF emptyDB ∧
      decodeCreateList (getField twoCatsCreateBody "categoryNames") = some ["Veg", "Fruit"] ∧
      (postFoodItem emptyDB twoCatsCreateBody 0).status = 201 ∧
      (postFoodItem emptyDB twoCatsCreateBody 0).createdId = some "i" ∧
      (WF (postFoodItem emptyDB twoCatsCreateBody 0).db ∧
        categoryNamesOf (postFoodItem emptyDB twoCatsCreateBody 0).db "i" = ["Veg", "Fruit"] ∧
        ∀ nm ∈ ["Veg", "Fruit"],
          ((postFoodItem emptyDB twoCatsCreateBody 0).db.categories.map
            (fun c => c.name)).count nm = 1)) :=
  ⟨⟨Reachable.post emptyDB twoCatsCreateBody 0 Reachable.init,
    create_category_links_exact.1 (postFoodItem emptyDB twoCatsCreateBody 0).db
      (Reachable.post emptyDB twoCatsCreateBody 0 Reachable.init)⟩,
    by decide, by decide, by decide, by decide,
    create_category_links_exact.2 emptyDB twoCatsCreateBody 0 ["Veg", "Fruit"] "i"
      (by decide) (by decide) (by decide) (by decide)⟩

/-! ### Claim C10 -/

/-- Deleting an item whose stored image reference is null touches no
external file storage: both delete handlers return 200 and emit no
fileDelete event. -/
theorem delete_no_image_no_filedelete (db : DB) (id2 : String) (item : FoodItem) (ok : Bool)
    (hfind : db.items.find? (fun x => x.id == id2) = some item)
    (hnoimg : item.imageUrl = none) :
    (deleteFoodItem db (JSValue.object [("id", JSValue.string id2)]) ok).status = 200 ∧
    (∀ e ∈ (deleteFoodItem db (JSValue.object [("id", JSValue.string id2)]) ok).trace,
      isFileDelete e = false) ∧
    (deleteFoodItemTx db (JSValue.object [("id", JSValue.string id2)]) ok).status = 200 ∧
    (∀ e ∈ (deleteFoodItemTx db (JSValue.object [("id", JSValue.string id2)]) ok).trace,
      isFileDelete e = false) := by
  have hfde : fileDeleteEvents item.imageUrl = [] := by rw [hnoimg]; rfl
  have hdel : deleteFoodItem db (JSValue.object [("id", JSValue.string id2)]) ok =
      ⟨200, { db with
          items := db.items.filter (fun i => !(i.id == id2)),
          links := db.links.filter (fun l => !(l.foodItemId == id2)) },
        some item.id,
        Event.dbFind :: (fileDeleteEvents item.imageUrl ++ [Event.dbDelete])⟩ := by
    show (match db.items.find? (fun i => i.id == id2) with
      | none => (⟨404, db, none, [Event.dbFind]⟩ : DeleteResult)
      | some it =>
        ⟨200, { db with
            items := db.items.filter (fun i => !(i.id == id2)),
            links := db.links.filter (fun l => !(l.foodItemId == id2)) },
          some it.id,
          Event.dbFind :: (fileDeleteEvents it.imageUrl ++ [Event.dbDelete])⟩) = _
    rw [hfind]
  have hdelTx : deleteFoodItemTx db (JSValue.object [("id", JSValue.string id2)]) ok =
      ⟨200, { db with
          items := db.items.filter (fun i => !(i.id == id2)),
          links := db.links.filter (fun l => !(l.foodItemId == id2)) },
        some item.id,
        Event.dbFind :: (Event.dbDelete :: fileDeleteEvents item.imageUrl)⟩ := by
    show (match db.items.find? (fun i => i.id == id2) with
      | none => (⟨404, db, none, [Event.dbFind]⟩ : DeleteResult)
      | some it =>
        ⟨200, { db with
            items := db.items.filter (fun i => !(i.id == id2)),
            links := db.links.filter (fun l => !(l.foodItemId == id2)) },
          some it.id,
          Event.dbFind :: (Event.dbDelete :: fileDeleteEvents it.imageUrl)⟩) = _
    rw [hfind]
  refine ⟨?_, ?_, ?_, ?_⟩
  · rw [hdel]
  · rw [hdel]
    dsimp only
    rw [hfde]
    intro e he
    simp only [List.nil_append, List.mem_cons, List.mem_singleton] at he
    rcases he with rfl | rfl | he
    · rfl
    · rfl
    · cases he
  · rw [hdelTx]
  · rw [hdelTx]
    dsimp only
    rw [hfde]
    intro e he
    simp only [List.mem_cons, List.mem_singleton] at he
    rcases he with rfl | rfl | he
    · rfl
    · rfl
    · cases he

/-- `imageUrl || null` collapses every falsy value to null. -/
theorem decodeCreateImageUrl_falsy {v : JSValue} (h : jsFalsy v = true) :
    decodeCreateImageUrl v = some none := by
  cases v <;> simp [jsFalsy] at h <;> simp [decodeCreateImageUrl, h]

/-- Claim C10: a create whose imageUrl field is falsy (the empty string,
null, 0, or false — JavaScript's `imageUrl || null`) stores a null image
reference rather than the supplied value, so a later delete of that item
never attempts an external file deletion — no fileDelete event occurs in
either delete handler — while still removing the row with a success
status. -/
theorem create_empty_image_stored_null (db : DB) (body : JSValue) (now : Int) (newId : String)
    (hwf : WF db)
    (himg : jsFalsy (getField body "imageUrl") = true)
    (h201 : (postFoodItem db body now).status = 201)
    (hid : (postFoodItem db body now).createdId = some newId) :
    ∃ item, (postFoodItem db body now).db.items.find? (fun x => x.id == newId) = some item ∧
      item.imageUrl = none ∧
      ∀ ok : Bool,
        (deleteFoodItem (postFoodItem db body now).db
          (JSValue.object [("id", JSValue.string newId)]) ok).status = 200 ∧
        (∀ e ∈ (deleteFoodItem (postFoodItem db body now).db
          (JSValue.object [("id", JSValue.string newId)]) ok).trace,
            isFileDelete e = false) ∧
        (deleteFoodItemTx (postFoodItem db body now).db
          (JSValue.object [("id", JSValue.string newId)]) ok).status = 200 ∧
        (∀ e ∈ (deleteFoodItemTx (postFoodItem db body now).db
          (JSValue.object [("id", JSValue.string newId)]) ok).trace,
            isFileDelete e = false) := by
  obtain ⟨h1, h2, h3, h4, h5, h6, h7⟩ := hwf
  rcases hres : postFoodItem db body now with ⟨st, db2, cid, tr⟩
  rw [hres] at h201 hid
  dsimp only at h201 hid ⊢
  subst h201
  rcases postFoodItem_201_inv hres with
    ⟨hcid, exp, img, kws, cns, hexp, himgdec, hkws, hcns, hadd⟩
  rw [hcid] at hid
  injection hid with hid
  subst hid
  have himgnone : img = none := by
    rw [decodeCreateImageUrl_falsy himg] at himgdec
    injection himgdec with himgdec
    exact himgdec.symm
  have hitems2 : db2.items = db.items ++
      [⟨itemIdOf db.nextItemId, asString (getField body "name"), exp,
        asInt (getField body "quantity"), img, kws,
        asString (getField body "placement"), false, now, now⟩] :=
    (addLinks_items cns _ _ _ hadd).1
  have hnone : db.items.find? (fun x => x.id == itemIdOf db.nextItemId) = none := by
    rw [List.find?_eq_none]
    intro x hx hbeq
    rcases h2 x hx with ⟨k, hk, hxk⟩
    have hbe : x.id = itemIdOf db.nextItemId := by simpa using hbeq
    rw [hxk] at hbe
    have := itemIdOf_inj hbe
    subst this
    exact absurd (List.mem_range.mp hk) (lt_irrefl _)
  have hfind2 : db2.items.find? (fun x => x.id == itemIdOf db.nextItemId) =
      some ⟨itemIdOf db.nextItemId, asString (getField body "name"), exp,
        asInt (getField body "quantity"), img, kws,
        asString (getField body "placement"), false, now, now⟩ := by
    rw [hitems2, List.find?_append, hnone]
    simp
  refine ⟨_, hfind2, himgnone, ?_⟩
  intro ok
  exact delete_no_image_no_filedelete db2 (itemIdOf db.nextItemId) _ ok hfind2 himgnone

theorem create_empty_image_stored_null_witness :
    (WF emptyDB ∧
      jsFalsy (getField emptyImageCreateBody "imageUrl") = true ∧
      (postFoodItem emptyDB emptyImageCreateBody 0).status = 201 ∧
      (postFoodItem emptyDB emptyImageCreateBody 0).createdId = some "i" ∧
      (∃ item, (postFoodItem emptyDB emptyImageCreateBody 0).db.items.find?
          (fun x => x.id == "i") = some item ∧
        item.imageUrl = none ∧
        ∀ ok : Bool,
          (deleteFoodItem (postFoodItem emptyDB emptyImageCreateBody 0).db
            (JSValue.object [("id", JSValue.string "i")]) ok).status = 200 ∧
          (∀ e ∈ (deleteFoodItem (postFoodItem emptyDB emptyImageCreateBody 0).db
            (JSValue.object [("id", JSValue.string "i")]) ok).trace,
              isFileDelete e = false) ∧
          (deleteFoodItemTx (postFoodItem emptyDB emptyImageCreateBody 0).db
            (JSValue.object [("id", JSValue.string "i")]) ok).status = 200 ∧
          (∀ e ∈ (deleteFoodItemTx (postFoodItem emptyDB emptyImageCreateBody 0).db
            (JSValue.object [("id", JSValue.string "i")]) ok).trace,
              isFileDelete e = false))) ∧
    (jsFalsy (getField zeroImageCreateBody "imageUrl") = true ∧
      (postFoodItem emptyDB zeroImageCreateBody 0).status = 201 ∧
      (postFoodItem emptyDB zeroImageCreateBody 0).createdId = some "i" ∧
      (∃ item, (postFoodItem emptyDB zeroImageCreateBody 0).db.items.find?
          (fun x => x.id == "i") = some item ∧
        item.imageUrl = none ∧
        ∀ ok : Bool,
          (deleteFoodItem (postFoodItem emptyDB zeroImageCreateBody 0).db
            (JSValue.object [("id", JSValue.string "i")]) ok).status = 200 ∧
          (∀ e ∈ (deleteFoodItem (postFoodItem emptyDB zeroImageCreateBody 0).db
            (JSValue.object [("id", JSValue.string "i")]) ok).trace,
              isFileDelete e = false) ∧
          (deleteFoodItemTx (postFoodItem emptyDB zeroImageCreateBody 0).db
            (JSValue.object [("id", JSValue.string "i")]) ok).status = 200 ∧
          (∀ e ∈ (deleteFoodItemTx (postFoodItem emptyDB zeroImageCreateBody 0).db
            (JSValue.object [("id", JSValue.string "i")]) ok).trace,
              isFileDelete e = false))) :=
  ⟨⟨by decide, by decide, by decide, by decide,
    create_empty_image_stored_null emptyDB emptyImageCreateBody 0 "i"
      (by decide) (by decide) (by decide) (by decide)⟩,
    by decide, by decide, by decide,
    create_empty_image_stored_null emptyDB zeroImageCreateBody 0 "i"
      (by decide) (by decide) (by decide) (by decide)⟩

end Pantry
